import Mathlib

/-!
DXVK instance bootstrap: adapter enumeration and ranking.

Shallow embedding of `src/dxvk/dxvk_instance.cpp`:

* `DxvkInstance::enumAdapters`   (lines 33-37)
* `DxvkInstance::createInstance` (lines 40-88)
* `DxvkInstance::queryAdapters`  (lines 91-132)

Driver entry points (`vkEnumeratePhysicalDevices`, `vkCreateInstance`, the
device property query), the device filter and the environment lookup are
collaborators of the translation unit and appear as parameters.

The call `std::sort` is a call into the C++ standard library.  It is a parameter
of the embedding, constrained by the postcondition the C++ standard gives it
(`StdSortPost`); `Libstdcxx.sort` is an executable transcription of the GNU
implementation, proved below to meet that postcondition for every strict weak
ordering (`Libstdcxx.sort_post`) and to keep the order of equivalent elements
on vectors of at most sixteen elements (`Libstdcxx.sort_stable_of_length_le`).
-/

namespace Dxvk

/-! ## Vulkan data model -/

/-- Vulkan status code (`VkResult`): `0` is success, every other value,
including the positive `VK_INCOMPLETE`, is a non-success status. -/
abbrev VkResult := Int

/-- Status `VK_SUCCESS`. -/
def VK_SUCCESS : VkResult := 0

/-- Status `VK_INCOMPLETE` (positive, but not success). -/
def VK_INCOMPLETE : VkResult := 5

/-- Opaque physical device handle (`VkPhysicalDevice`). -/
abbrev VkPhysicalDevice := Nat

/-- Enumeration `VkPhysicalDeviceType` of the Vulkan headers. -/
inductive VkPhysicalDeviceType where
  | OTHER
  | INTEGRATED_GPU
  | DISCRETE_GPU
  | VIRTUAL_GPU
  | CPU
  deriving DecidableEq, Repr

/-- The part of `VkPhysicalDeviceProperties` read by the ranking: `deviceName`
is the content of the NUL-terminated `char[256]` field, `deviceType` the device
class. -/
structure VkPhysicalDeviceProperties where
  deviceName : String
  deviceType : VkPhysicalDeviceType
  deriving DecidableEq, Repr

/-- Adapter record (`DxvkAdapter`): the device handle and the property snapshot
taken when the record is created. -/
structure DxvkAdapter where
  handle : VkPhysicalDevice
  deviceProperties : VkPhysicalDeviceProperties
  deriving DecidableEq, Repr

/-- Error object thrown by the translation unit (`DxvkError`), carrying its
message. -/
structure DxvkError where
  message : String
  deriving DecidableEq, Repr

/-- Line written to the logger. -/
inductive LogLine where
  | info (msg : String)
  | warn (msg : String)
  deriving DecidableEq, Repr

/-! ## Ranking comparator (lines 114-124) -/

/-- Value of `a_is_preferred` (line 115): the override string compared, with
`std::string == const char*`, to the adapter name.  There is no test for an
empty override. -/
def is_preferred (preferred_adapter : String) (a : DxvkAdapter) : Bool :=
  preferred_adapter == a.deviceProperties.deviceName

/-- Test `deviceType == VK_PHYSICAL_DEVICE_TYPE_DISCRETE_GPU` (lines 119-120). -/
def is_discrete (a : DxvkAdapter) : Bool :=
  a.deviceProperties.deviceType == VkPhysicalDeviceType.DISCRETE_GPU

/-- The lambda handed to `std::sort` (lines 114-124). -/
def adapterLess (preferred_adapter : String) (a b : DxvkAdapter) : Bool :=
  let a_is_preferred := is_preferred preferred_adapter a
  let b_is_preferred := is_preferred preferred_adapter b
  if a_is_preferred == b_is_preferred then
    is_discrete a && !(is_discrete b)
  else
    a_is_preferred

/-- Ranking key of the specification: `(is_preferred, is_discrete)`. -/
def rankingKey (preferred_adapter : String) (a : DxvkAdapter) : Bool × Bool :=
  (is_preferred preferred_adapter a, is_discrete a)

/-- Lexicographic comparison of ranking keys in which `true` comes before
`false`, written after the wording of the specification. -/
def keyLexLess (k₁ k₂ : Bool × Bool) : Bool :=
  (k₁.1 && !k₂.1) || (k₁.1 == k₂.1 && (k₁.2 && !k₂.2))

/-! ## Library routine `std::sort`

`std::sort` belongs to the C++ standard library, not to this repository.  The
C++ standard states its effect as a postcondition (`StdSortPost`) and gives no
promise about the order of equivalent elements.  `Libstdcxx.sort` transcribes
the GNU implementation (`bits/stl_algo.h` and `bits/stl_heap.h` of GCC 12), the
library of the MinGW toolchain DXVK is built with.  A vector is a list, an iterator is an
index into it; reading outside the vector (undefined behaviour in C++, never
reached when the comparator is a strict weak ordering) ends the scan that
attempted it. -/

/-- Postcondition of `std::sort(first, last, comp)` in the C++ standard: the
range is a rearrangement of its old content and is sorted with respect to
`comp`, i.e. no element is `comp`-less than one placed before it. -/
def StdSortPost {α : Type} (comp : α → α → Bool) (input output : List α) : Prop :=
  output.Perm input ∧ output.Pairwise (fun x y => comp y x = false)

/-- Precondition of `std::sort` on its comparator in the C++ standard: `comp`
is a strict weak ordering, i.e. irreflexive and transitive with a transitive
equivalence `!comp(a, b) && !comp(b, a)`. -/
def StrictWeakOrdering {α : Type} (comp : α → α → Bool) : Prop :=
  (∀ a, comp a a = false) ∧
  (∀ a b c, comp a b = true → comp b c = true → comp a c = true) ∧
  (∀ a b c, (comp a b = false ∧ comp b a = false) → (comp b c = false ∧ comp c b = false) →
    (comp a c = false ∧ comp c a = false))

namespace Libstdcxx

variable {α : Type}

/-- Constant `_S_threshold`. -/
def S_threshold : Nat := 16

/-- Call `comp(*i, *j)` on two iterators. -/
def compIterIter (comp : α → α → Bool) (v : List α) (i j : Nat) : Bool :=
  match v[i]?, v[j]? with
  | some x, some y => comp x y
  | _, _ => false

/-- Call `comp(*i, value)`. -/
def compIterVal (comp : α → α → Bool) (v : List α) (i : Nat) (value : α) : Bool :=
  match v[i]? with
  | some x => comp x value
  | none => false

/-- Call `comp(value, *j)`. -/
def compValIter (comp : α → α → Bool) (value : α) (v : List α) (j : Nat) : Bool :=
  match v[j]? with
  | some y => comp value y
  | none => false

/-- Assignment `*dst = *src`. -/
def assignAt (v : List α) (dst src : Nat) : List α :=
  match v[src]? with
  | some x => v.set dst x
  | none => v

/-- Routine `std::iter_swap(i, j)`. -/
def iter_swap (v : List α) (i j : Nat) : List α :=
  match v[i]?, v[j]? with
  | some x, some y => (v.set i y).set j x
  | _, _ => v

/-- Halving loop behind `lg`; `fuel` bounds the number of halvings. -/
def lgLoop : Nat → Nat → Nat
  | 0, _ => 0
  | fuel + 1, n => if n < 2 then 0 else lgLoop fuel (n / 2) + 1

/-- Routine `std::__lg`: floor of the binary logarithm. -/
def lg (n : Nat) : Nat :=
  lgLoop n n

/-- Routine `std::__move_median_to_first(result, a, b, c, comp)`. -/
def move_median_to_first (comp : α → α → Bool) (v : List α) (result a b c : Nat) : List α :=
  if compIterIter comp v a b then
    if compIterIter comp v b c then iter_swap v result b
    else if compIterIter comp v a c then iter_swap v result c
    else iter_swap v result a
  else if compIterIter comp v a c then iter_swap v result a
  else if compIterIter comp v b c then iter_swap v result c
  else iter_swap v result b

/-- Loop `while (comp(first, pivot)) ++first;` of `__unguarded_partition`. -/
def scanUp (comp : α → α → Bool) (v : List α) (pivot : Nat) : Nat → Nat → Nat
  | 0, first => first
  | fuel + 1, first =>
    if compIterIter comp v first pivot then scanUp comp v pivot fuel (first + 1) else first

/-- Loop `while (comp(pivot, last)) --last;` of `__unguarded_partition`. -/
def scanDown (comp : α → α → Bool) (v : List α) (pivot : Nat) : Nat → Nat → Nat
  | 0, last => last
  | fuel + 1, last =>
    if compIterIter comp v pivot last then scanDown comp v pivot fuel (last - 1) else last

/-- Routine `std::__unguarded_partition(first, last, pivot, comp)`; every turn
of the outer loop advances `first`, so `fuel` is the vector length. -/
def unguarded_partition (comp : α → α → Bool) (pivot : Nat) :
    Nat → List α → Nat → Nat → List α × Nat
  | 0, v, first, _ => (v, first)
  | fuel + 1, v, first, last =>
    let first := scanUp comp v pivot v.length first
    let last := last - 1
    let last := scanDown comp v pivot v.length last
    if !(decide (first < last)) then (v, first)
    else unguarded_partition comp pivot fuel (iter_swap v first last) (first + 1) last

/-- Routine `std::__unguarded_partition_pivot(first, last, comp)`. -/
def unguarded_partition_pivot (comp : α → α → Bool) (v : List α) (first last : Nat) :
    List α × Nat :=
  let mid := first + (last - first) / 2
  let v := move_median_to_first comp v first (first + 1) mid (last - 1)
  unguarded_partition comp first v.length v (first + 1) last

/-- Routine `std::__push_heap(first, holeIndex, topIndex, value, comp)`. -/
def push_heap (comp : α → α → Bool) (first topIndex : Nat) (value : α) :
    Nat → List α → Nat → List α
  | 0, v, holeIndex => v.set (first + holeIndex) value
  | fuel + 1, v, holeIndex =>
    let parent := (holeIndex - 1) / 2
    if decide (holeIndex > topIndex) && compIterVal comp v (first + parent) value then
      push_heap comp first topIndex value fuel (assignAt v (first + holeIndex) (first + parent))
        parent
    else v.set (first + holeIndex) value

/-- First loop of `std::__adjust_heap`: the hole moves down to the better
child; returns the vector, `holeIndex` and `secondChild`. -/
def adjust_heap_down (comp : α → α → Bool) (first len : Nat) :
    Nat → List α → Nat → Nat → List α × Nat × Nat
  | 0, v, holeIndex, secondChild => (v, holeIndex, secondChild)
  | fuel + 1, v, holeIndex, secondChild =>
    if secondChild < (len - 1) / 2 then
      let secondChild := 2 * (secondChild + 1)
      let secondChild :=
        if compIterIter comp v (first + secondChild) (first + (secondChild - 1))
        then secondChild - 1 else secondChild
      adjust_heap_down comp first len fuel (assignAt v (first + holeIndex) (first + secondChild))
        secondChild secondChild
    else (v, holeIndex, secondChild)

/-- Routine `std::__adjust_heap(first, holeIndex, len, value, comp)`. -/
def adjust_heap (comp : α → α → Bool) (v : List α) (first holeIndex len : Nat) (value : α) :
    List α :=
  let topIndex := holeIndex
  match adjust_heap_down comp first len len v holeIndex holeIndex with
  | (v, holeIndex, secondChild) =>
    if len % 2 == 0 && secondChild == (len - 2) / 2 then
      let secondChild := 2 * (secondChild + 1)
      let v := assignAt v (first + holeIndex) (first + (secondChild - 1))
      push_heap comp first topIndex value len v (secondChild - 1)
    else
      push_heap comp first topIndex value len v holeIndex

/-- Routine `std::__pop_heap(first, last, result, comp)`. -/
def pop_heap (comp : α → α → Bool) (v : List α) (first last result : Nat) : List α :=
  match v[result]? with
  | some value => adjust_heap comp (assignAt v result first) first 0 (last - first) value
  | none => v

/-- Loop of `std::__make_heap`, from `parent` down to `0`. -/
def make_heap_loop (comp : α → α → Bool) (first len : Nat) : Nat → List α → List α
  | 0, v =>
    match v[first]? with
    | some value => adjust_heap comp v first 0 len value
    | none => v
  | parent + 1, v =>
    match v[first + (parent + 1)]? with
    | some value => make_heap_loop comp first len parent (adjust_heap comp v first (parent + 1) len value)
    | none => v

/-- Routine `std::__make_heap(first, last, comp)`. -/
def make_heap (comp : α → α → Bool) (v : List α) (first last : Nat) : List α :=
  if last - first < 2 then v
  else make_heap_loop comp first (last - first) ((last - first - 2) / 2) v

/-- Routine `std::__sort_heap(first, last, comp)`; `fuel` bounds `last - first`. -/
def sort_heap (comp : α → α → Bool) (first : Nat) : Nat → List α → Nat → List α
  | 0, v, _ => v
  | fuel + 1, v, last =>
    if last - first > 1 then
      sort_heap comp first fuel (pop_heap comp v first (last - 1) (last - 1)) (last - 1)
    else v

/-- Loop of `std::__heap_select` over `[i, last)`; `count` is `last - i`. -/
def heap_select_loop (comp : α → α → Bool) (first middle : Nat) : Nat → List α → Nat → List α
  | 0, v, _ => v
  | count + 1, v, i =>
    heap_select_loop comp first middle count
      (if compIterIter comp v i first then pop_heap comp v first middle i else v) (i + 1)

/-- Routine `std::__heap_select(first, middle, last, comp)`. -/
def heap_select (comp : α → α → Bool) (v : List α) (first middle last : Nat) : List α :=
  heap_select_loop comp first middle (last - middle) (make_heap comp v first middle) middle

/-- Heap sort of a range: `std::__partial_sort(first, middle, last, comp)`. -/
def heap_sort_range (comp : α → α → Bool) (v : List α) (first middle last : Nat) : List α :=
  sort_heap comp first (middle - first) (heap_select comp v first middle last) middle

/-- Routine `std::__introsort_loop(first, last, depth_limit, comp)`.  Each turn
of its `while` loop lowers `depth_limit` by one, and so does the nested call;
the recursion is on `depth_limit`. -/
def introsort_loop (comp : α → α → Bool) : Nat → List α → Nat → Nat → List α
  | 0, v, first, last =>
    if last - first > S_threshold then heap_sort_range comp v first last last else v
  | depth_limit + 1, v, first, last =>
    if last - first > S_threshold then
      match unguarded_partition_pivot comp v first last with
      | (v, cut) =>
        introsort_loop comp depth_limit (introsort_loop comp depth_limit v cut last) first cut
    else v

/-- Loop of `std::__unguarded_linear_insert(last, comp)` for the value `val`
taken from `*last`. -/
def unguarded_linear_insert_loop (comp : α → α → Bool) (val : α) : Nat → List α → Nat → List α
  | 0, v, last => v.set last val
  | _ + 1, v, 0 => v.set 0 val
  | fuel + 1, v, next + 1 =>
    if compValIter comp val v next then
      unguarded_linear_insert_loop comp val fuel (assignAt v (next + 1) next) next
    else v.set (next + 1) val

/-- Routine `std::__unguarded_linear_insert(last, comp)`. -/
def unguarded_linear_insert (comp : α → α → Bool) (v : List α) (last : Nat) : List α :=
  match v[last]? with
  | some val => unguarded_linear_insert_loop comp val v.length v last
  | none => v

/-- Routine `std::move_backward(first, last, d_last)` inside one vector;
`count` is `last - first`. -/
def move_backward : Nat → List α → Nat → Nat → List α
  | 0, v, _, _ => v
  | count + 1, v, last, d_last =>
    move_backward count (assignAt v (d_last - 1) (last - 1)) (last - 1) (d_last - 1)

/-- Body of the `for` loop of `std::__insertion_sort` at iterator `i`. -/
def insertion_sort_step (comp : α → α → Bool) (first : Nat) (v : List α) (i : Nat) : List α :=
  if compIterIter comp v i first then
    match v[i]? with
    | some val => (move_backward (i - first) v i (i + 1)).set first val
    | none => v
  else unguarded_linear_insert comp v i

/-- Loop of `std::__insertion_sort`; `count` is `last - i`. -/
def insertion_sort_loop (comp : α → α → Bool) (first : Nat) : Nat → List α → Nat → List α
  | 0, v, _ => v
  | count + 1, v, i =>
    insertion_sort_loop comp first count (insertion_sort_step comp first v i) (i + 1)

/-- Routine `std::__insertion_sort(first, last, comp)`. -/
def insertion_sort (comp : α → α → Bool) (v : List α) (first last : Nat) : List α :=
  if first == last then v
  else insertion_sort_loop comp first (last - (first + 1)) v (first + 1)

/-- Routine `std::__unguarded_insertion_sort(first, last, comp)`; `count` is
`last - i`. -/
def unguarded_insertion_sort (comp : α → α → Bool) : Nat → List α → Nat → List α
  | 0, v, _ => v
  | count + 1, v, i =>
    unguarded_insertion_sort comp count (unguarded_linear_insert comp v i) (i + 1)

/-- Routine `std::__final_insertion_sort(first, last, comp)`. -/
def final_insertion_sort (comp : α → α → Bool) (v : List α) (first last : Nat) : List α :=
  if last - first > S_threshold then
    unguarded_insertion_sort comp (last - (first + S_threshold))
      (insertion_sort comp v first (first + S_threshold)) (first + S_threshold)
  else insertion_sort comp v first last

/-- Routine `std::sort(v.begin(), v.end(), comp)` of libstdc++ (`std::__sort`). -/
def sort (comp : α → α → Bool) (v : List α) : List α :=
  if v.length != 0 then
    final_insertion_sort comp
      (introsort_loop comp (lg v.length * 2) v 0 v.length) 0 v.length
  else v

/-! ### Insertion sort of libstdc++ on lists

Functional reading of `__unguarded_linear_insert` and of one turn of
`__insertion_sort`, used to reason about the index-based transcription. -/

/-- Effect of `__unguarded_linear_insert` on a reversed sorted range: `val`
passes every element it is `comp`-less than and is placed behind the first
element it is not less than. -/
def insertBackRev (comp : α → α → Bool) (val : α) : List α → List α
  | [] => [val]
  | z :: rest => if comp val z then z :: insertBackRev comp val rest else val :: z :: rest

/-- Effect of `__unguarded_linear_insert` on the range in front of `val`. -/
def insertBack (comp : α → α → Bool) (val : α) (range : List α) : List α :=
  (insertBackRev comp val range.reverse).reverse

/-- Effect of one turn of the loop of `__insertion_sort` on the range in front
of `val`: to the front if `val` is less than the first element, else linear
insertion. -/
def insertStep (comp : α → α → Bool) (val : α) (range : List α) : List α :=
  match range with
  | [] => [val]
  | p :: rest => if comp val p then val :: p :: rest else insertBack comp val (p :: rest)

/-- Effect of `__final_insertion_sort` on a whole vector: the first sixteen
elements go through the turns of `__insertion_sort`, the others through
`__unguarded_linear_insert`. -/
def finalInsertionSorted (comp : α → α → Bool) : List α → List α
  | [] => []
  | first :: rest =>
    (rest.drop 15).foldl (fun range x => insertBack comp x range)
      ((rest.take 15).foldl (fun range x => insertStep comp x range) [first])

end Libstdcxx

/-! ## `enumAdapters` (lines 33-37) -/

/-- Reference-counted pointer `Rc<T>`: null or pointing to an object. -/
inductive Rc (α : Type) where
  | null
  | ptr (obj : α)
  deriving DecidableEq, Repr

/-- Read `v[i]` of a `std::vector`; `none` stands for an access outside the
vector, which is undefined behaviour in C++. -/
def vectorAt {α : Type} (v : List α) (i : Nat) : Option α :=
  v[i]?

/-- Method `DxvkInstance::enumAdapters` (lines 33-37) as a function of the
member `m_adapters`; the result is paired with the member after the call. -/
def enumAdapters (m_adapters : List (Rc DxvkAdapter)) (index : Nat) :
    Option (Rc DxvkAdapter) × List (Rc DxvkAdapter) :=
  (if index < m_adapters.length then vectorAt m_adapters index else some Rc.null,
   m_adapters)

/-! ## `queryAdapters` (lines 91-132) -/

/-- Call made to the Vulkan driver; for `vkEnumeratePhysicalDevices` the
argument is the buffer passed as `pPhysicalDevices`: `none` for a null pointer,
`some capacity` for a buffer of `capacity` handles. -/
inductive DriverCall where
  | vkEnumeratePhysicalDevices (buffer : Option Nat)
  | vkCreateInstance (extensionNames : List String)
  deriving DecidableEq, Repr

/-- What a method leaves behind: the driver calls it made, the lines it
logged, and either the returned value or the `DxvkError` it threw. -/
structure Outcome (α : Type) where
  calls : List DriverCall
  log : List LogLine
  result : Except DxvkError α

deriving instance DecidableEq for Except

/-- How a run of `queryAdapters` ends: it returns a value, it throws a
`DxvkError`, or it reads `adapters[i]` outside the vector, after which C++ gives
no meaning to the run. -/
inductive Completion (α : Type) where
  | returned (value : α)
  | threw (error : DxvkError)
  | undefined
  deriving DecidableEq, Repr

/-- What a run of `queryAdapters` leaves behind: the driver calls made, the
lines logged, and how the run ended. -/
structure QueryOutcome where
  calls : List DriverCall
  log : List LogLine
  result : Completion (List DxvkAdapter)

/-- Null handle `VK_NULL_HANDLE`. -/
def VK_NULL_HANDLE : VkPhysicalDevice := 0

/-- Driver behind `m_vki` as seen by `queryAdapters`.

* `enumCount` answers the first call,
  `vkEnumeratePhysicalDevices(instance, &numAdapters, nullptr)`, with a status and
  the value stored to `numAdapters`;
* `enumFetch buffer` answers the second call,
  `vkEnumeratePhysicalDevices(instance, &numAdapters, adapters.data())`, with a
  status, the value stored to `numAdapters` and the handles written to the
  buffer; `buffer` is `none` when `adapters.data()` is null and `some capacity`
  otherwise.  Nothing ties the stored value to the capacity: with a null buffer
  the call is a count query again and stores the number of devices then present;
* `getProperties` is the property query run by the `DxvkAdapter` constructor. -/
structure InstanceFn where
  enumCount : VkResult × Nat
  enumFetch : Option Nat → VkResult × Nat × List VkPhysicalDevice
  getProperties : VkPhysicalDevice → VkPhysicalDeviceProperties

/-- Constructor call `new DxvkAdapter(this, handle)` (line 104). -/
def newDxvkAdapter (m_vki : InstanceFn) (handle : VkPhysicalDevice) : DxvkAdapter :=
  { handle := handle, deviceProperties := m_vki.getProperties handle }

/-- Pointer `adapters.data()` passed to the second call (line 99): the vector
has `numAdapters` elements, and for an empty vector, for which libstdc++
allocates nothing, the pointer is null. -/
def fetchBuffer (m_vki : InstanceFn) : Option Nat :=
  if m_vki.enumCount.2 = 0 then none else some m_vki.enumCount.2

/-- Answer of the driver to the second call (line 99). -/
def fetchAnswer (m_vki : InstanceFn) : VkResult × Nat × List VkPhysicalDevice :=
  m_vki.enumFetch (fetchBuffer m_vki)

/-- Content of the vector `adapters` after the second call (lines 98-99): it is
created with `numAdapters` null handles, and the handles the driver writes fill
its leading cells.  The vector keeps its `numAdapters` cells whatever the driver
answers; nothing is written through a null buffer. -/
def adaptersBuffer (m_vki : InstanceFn) : List VkPhysicalDevice :=
  let numAdapters := m_vki.enumCount.2
  let written := (fetchAnswer m_vki).2.2
  (written ++ List.replicate (numAdapters - written.length) VK_NULL_HANDLE).take numAdapters

/-- Value of `numAdapters` when the loop of line 103 starts: the count stored by
the second call. -/
def numAdaptersFetched (m_vki : InstanceFn) : Nat :=
  (fetchAnswer m_vki).2.1

/-- Turns `i, i + 1, ...` of the loop of lines 103-108, `count` of them, up to
the filter: each reads `adapters[i]` and wraps it; `none` when a read falls
outside the vector. -/
def wrapFrom (m_vki : InstanceFn) (adapters : List VkPhysicalDevice) :
    Nat → Nat → Option (List DxvkAdapter)
  | 0, _ => some []
  | count + 1, i =>
    match vectorAt adapters i with
    | none => none
    | some handle =>
      match wrapFrom m_vki adapters count (i + 1) with
      | none => none
      | some rest => some (newDxvkAdapter m_vki handle :: rest)

/-- Adapter records created by the loop of lines 103-108, before the filter is
asked: one for each `adapters[i]` with `i < numAdapters`; `none` when the loop
reads outside the vector. -/
def wrappedAdapters (m_vki : InstanceFn) : Option (List DxvkAdapter) :=
  wrapFrom m_vki (adaptersBuffer m_vki) (numAdaptersFetched m_vki) 0

/-- The `std::sort` call of lines 113-124; `sort` is the library routine. -/
def rankAdapters (sort : (DxvkAdapter → DxvkAdapter → Bool) → List DxvkAdapter → List DxvkAdapter)
    (preferred_adapter : String) (result : List DxvkAdapter) : List DxvkAdapter :=
  sort (adapterLess preferred_adapter) result

/-- Message of the error thrown at lines 96 and 100. -/
def enumFailed : DxvkError :=
  ⟨"DxvkInstance::enumAdapters: Failed to enumerate adapters"⟩

/-- Warning of lines 127-128. -/
def noAdaptersWarning : LogLine :=
  LogLine.warn "DXVK: No adapters found. Please check your device filter settings and Vulkan setup."

/-- Method `DxvkInstance::queryAdapters` (lines 91-132).  `sort` is `std::sort`,
`testAdapter` is `DxvkDeviceFilter::testAdapter`, `preferred_adapter` is the value
of the environment variable `DXVK_DEFAULT_ADAPTER`. -/
def queryAdapters
    (sort : (DxvkAdapter → DxvkAdapter → Bool) → List DxvkAdapter → List DxvkAdapter)
    (m_vki : InstanceFn) (testAdapter : DxvkAdapter → Bool) (preferred_adapter : String) :
    QueryOutcome :=
  let countCall := DriverCall.vkEnumeratePhysicalDevices none
  if m_vki.enumCount.1 != VK_SUCCESS then
    ⟨[countCall], [], .threw enumFailed⟩
  else
    let fetchCall := DriverCall.vkEnumeratePhysicalDevices (fetchBuffer m_vki)
    if (fetchAnswer m_vki).1 != VK_SUCCESS then
      ⟨[countCall, fetchCall], [], .threw enumFailed⟩
    else
      match wrappedAdapters m_vki with
      | none => ⟨[countCall, fetchCall], [], .undefined⟩
      | some wrapped =>
        let result := wrapped.filter testAdapter
        let line := LogLine.info ("Default adapter=:" ++ preferred_adapter)
        let result := rankAdapters sort preferred_adapter result
        if result.length == 0 then
          ⟨[countCall, fetchCall], [line, noAdaptersWarning], .returned result⟩
        else
          ⟨[countCall, fetchCall], [line], .returned result⟩

/-! ### Stable ranking of the specification -/

/-- Stability as the specification words it: for every ranking key, the records
carrying that key stand in `output` in the order they have in `input`. -/
def RankStable (preferred_adapter : String) (input output : List DxvkAdapter) : Prop :=
  ∀ k : Bool × Bool,
    output.filter (fun a => rankingKey preferred_adapter a == k) =
      input.filter (fun a => rankingKey preferred_adapter a == k)

/-- Ranking of the specification (section 4.5 step 3), written from its words:
preferred records first, among equally preferred ones the discrete first, and
enumeration order within each key. -/
def stableRank (preferred_adapter : String) (input : List DxvkAdapter) : List DxvkAdapter :=
  input.filter (fun a => rankingKey preferred_adapter a == (true, true)) ++
  (input.filter (fun a => rankingKey preferred_adapter a == (true, false)) ++
  (input.filter (fun a => rankingKey preferred_adapter a == (false, true)) ++
   input.filter (fun a => rankingKey preferred_adapter a == (false, false))))

/-! ## `createInstance` (lines 40-88) -/

/-- Modelled from the spec: capability descriptor `DxvkExt` (declared in
`dxvk_extensions.h`, not part of this translation unit): a name and the mutable
`enabled` state. -/
structure DxvkExt where
  name : String
  enabled : Bool
  deriving DecidableEq, Repr

/-- Modelled from the spec: capability set `DxvkNameSet`, names without
repetition in insertion order. -/
abbrev DxvkNameSet := List String

/-- Modelled from the spec: membership test of a capability set. -/
def DxvkNameSet.supports (self : DxvkNameSet) (name : String) : Bool :=
  self.contains name

/-- Modelled from the spec: insertion into a capability set; inserting a name
twice is a no-op. -/
def DxvkNameSet.add (self : DxvkNameSet) (name : String) : DxvkNameSet :=
  if self.contains name then self else self ++ [name]

/-- Modelled from the spec: `merge(other)` unions the names of `other` into the
set. -/
def DxvkNameSet.merge (self other : DxvkNameSet) : DxvkNameSet :=
  other.foldl DxvkNameSet.add self

/-- Modelled from the spec: `toNameList()` projects the set to its names in
stable order. -/
def DxvkNameSet.toNameList (self : DxvkNameSet) : List String :=
  self

/-- Modelled from the spec: `enable(required, out) -> bool` of section 4.1
(`DxvkNameSet::enableExtensions`, defined in `dxvk_extensions.cpp`): each
requested capability present in the set is marked enabled and copied to `out`;
the result is false if any requested capability is absent, with no rollback.
Returns the flag, the descriptors after the call and `out` after the call. -/
def DxvkNameSet.enableExtensions (self : DxvkNameSet) :
    List DxvkExt → DxvkNameSet → Bool × List DxvkExt × DxvkNameSet
  | [], nameSet => (true, [], nameSet)
  | ext :: rest, nameSet =>
    if self.supports ext.name then
      match DxvkNameSet.enableExtensions self rest (DxvkNameSet.add nameSet ext.name) with
      | (ok, exts, out) => (ok, { ext with enabled := true } :: exts, out)
    else
      match DxvkNameSet.enableExtensions self rest nameSet with
      | (_, exts, out) => (false, ext :: exts, out)

/-- Modelled from the spec: the three mandatory instance capabilities of
`DxvkInstanceExtensions` (declared in `dxvk_extensions.h`), in the order of the
array `insExtensionList` of lines 43-47. -/
def insExtensionList : List DxvkExt :=
  [ { name := "VK_KHR_get_physical_device_properties2", enabled := false },
    { name := "VK_KHR_surface", enabled := false },
    { name := "VK_KHR_win32_surface", enabled := false } ]

/-- Opaque instance handle `VkInstance`. -/
abbrev VkInstance := Nat

/-- Loader behind `m_vkl` as seen by `createInstance`: the capability names the
driver stack supports (`DxvkNameSet::enumInstanceExtensions`) and the answer of
`vkCreateInstance` to a create-info with the given capability names, a status
and the handle stored to `result`. -/
structure LibraryFn where
  enumInstanceExtensions : DxvkNameSet
  vkCreateInstance : List String → VkResult × VkInstance

/-- Message of the error thrown at line 56. -/
def negotiationFailed : DxvkError :=
  ⟨"DxvkInstance: Failed to create instance"⟩

/-- Message of the error thrown at line 86. -/
def creationFailed : DxvkError :=
  ⟨"DxvkInstance::createInstance: Failed to create Vulkan instance"⟩

/-- Method `DxvkInstance::logNameList` (lines 135-138). -/
def logNameList (names : List String) : List LogLine :=
  names.map (fun name => LogLine.info ("  " ++ name))

/-- Capability names handed to `vkCreateInstance` when negotiation succeeds
(lines 59-60); `vrExtensions` is `g_vrInstance.getInstanceExtensions()`. -/
def extensionNameList (m_vkl : LibraryFn) (vrExtensions : DxvkNameSet) : List String :=
  DxvkNameSet.toNameList
    (DxvkNameSet.merge
      (DxvkNameSet.enableExtensions m_vkl.enumInstanceExtensions insExtensionList []).2.2
      vrExtensions)

/-- Method `DxvkInstance::createInstance` (lines 40-88).  The create-info is
represented by the capability names it carries; the identification fields
(engine name `DXVK`, version 0.7.2) are constants. -/
def createInstance (m_vkl : LibraryFn) (vrExtensions : DxvkNameSet) : Outcome VkInstance :=
  let extensionsAvailable := m_vkl.enumInstanceExtensions
  if !(DxvkNameSet.enableExtensions extensionsAvailable insExtensionList []).1 then
    ⟨[], [], .error negotiationFailed⟩
  else
    let names := extensionNameList m_vkl vrExtensions
    let log := LogLine.info "Enabled instance extensions:" :: logNameList names
    if (m_vkl.vkCreateInstance names).1 != VK_SUCCESS then
      ⟨[DriverCall.vkCreateInstance names], log, .error creationFailed⟩
    else
      ⟨[DriverCall.vkCreateInstance names], log, .ok (m_vkl.vkCreateInstance names).2⟩

open VkPhysicalDeviceType

/-! ## Test fixtures: the scenarios of the specification -/

/-- Scenario C/D device `D1(discrete, "A")`. -/
def scenarioD1 : DxvkAdapter := ⟨1, ⟨"A", DISCRETE_GPU⟩⟩

/-- Scenario C/D device `D2(integrated, "B")`. -/
def scenarioD2 : DxvkAdapter := ⟨2, ⟨"B", INTEGRATED_GPU⟩⟩

/-- Scenario C/D device `D3(discrete, "C")`. -/
def scenarioD3 : DxvkAdapter := ⟨3, ⟨"C", DISCRETE_GPU⟩⟩

/-- An integrated device whose device name is the empty string. -/
def unnamedDevice : DxvkAdapter := ⟨4, ⟨"", INTEGRATED_GPU⟩⟩

/-- Property query of the scenario driver. -/
def scenarioProperties (handle : VkPhysicalDevice) : VkPhysicalDeviceProperties :=
  if handle = 1 then ⟨"A", DISCRETE_GPU⟩
  else if handle = 2 then ⟨"B", INTEGRATED_GPU⟩
  else ⟨"C", DISCRETE_GPU⟩

/-- A driver that reports `counted` devices in the first call and has the
devices `present` when the second call arrives.  Given a buffer it writes as
many of them as the buffer holds, stores their number and answers
`VK_INCOMPLETE` when some did not fit; given a null buffer it stores the number
of devices present and writes nothing (the behaviour the Vulkan specification
prescribes for `vkEnumeratePhysicalDevices`). -/
def vulkanDriver (counted : Nat) (present : List VkPhysicalDevice)
    (properties : VkPhysicalDevice → VkPhysicalDeviceProperties) : InstanceFn where
  enumCount := (VK_SUCCESS, counted)
  enumFetch := fun buffer =>
    match buffer with
    | none => (VK_SUCCESS, present.length, [])
    | some capacity =>
      (if capacity < present.length then VK_INCOMPLETE else VK_SUCCESS,
       (present.take capacity).length, present.take capacity)
  getProperties := properties

/-- Driver of scenarios C, D and F: three devices in both phases. -/
def scenarioDriver : InstanceFn := vulkanDriver 3 [1, 2, 3] scenarioProperties

/-- Driver in which a device disappears between the two phases: three devices
are counted, two are left when the handles are fetched. -/
def shrinkingDriver : InstanceFn := vulkanDriver 3 [1, 2] scenarioProperties

/-- Driver in which a device appears between the two phases: none is counted,
one is present when the second call arrives. -/
def hotplugDriver : InstanceFn := vulkanDriver 0 [1] scenarioProperties

/-- Driver without devices. -/
def emptyDriver : InstanceFn := vulkanDriver 0 [] scenarioProperties

/-- Seventeen identical discrete cards, handles 1 to 17 in enumeration order. -/
def rig17 : List DxvkAdapter :=
  (List.range 17).map (fun i => ⟨i + 1, ⟨"GPU", DISCRETE_GPU⟩⟩)

/-- Driver of a machine with the seventeen cards of `rig17`. -/
def rigDriver : InstanceFn :=
  vulkanDriver 17 ((List.range 17).map (fun i => i + 1)) (fun _ => ⟨"GPU", DISCRETE_GPU⟩)

/-! ## Theorems -/

set_option maxRecDepth 100000

namespace Libstdcxx

variable {α : Type}

/-! ### The library routine rearranges its range -/

theorem length_assignAt (v : List α) (dst src : Nat) : (assignAt v dst src).length = v.length := by
  unfold assignAt
  split <;> simp

theorem length_iter_swap (v : List α) (i j : Nat) : (iter_swap v i j).length = v.length := by
  unfold iter_swap
  split <;> simp

theorem set_perm_cons {l : List α} {i : Nat} {x y : α} (h : l[i]? = some y) :
    (x :: l).Perm (y :: l.set i x) := by
  induction l generalizing i with
  | nil => simp at h
  | cons a l ih =>
    cases i with
    | zero =>
      simp at h
      subst h
      exact List.Perm.swap _ _ _
    | succ i =>
      simp at h
      have h1 := ih h
      simp only [List.set_cons_succ]
      exact (List.Perm.swap a x l).trans (((List.Perm.cons a h1)).trans (List.Perm.swap y a _))

theorem swap_perm {l : List α} {i j : Nat} {x y : α} (hi : l[i]? = some x) (hj : l[j]? = some y) :
    ((l.set i y).set j x).Perm l := by
  have h1 : (y :: l).Perm (x :: l.set i y) := set_perm_cons hi
  have hj2 : (l.set i y)[j]? = some y := by
    rw [List.getElem?_set]
    split
    · rename_i h
      have hlt : i < l.length := (List.getElem?_eq_some.mp hi).1
      simp [hlt]
    · exact hj
  have h2 : (x :: l.set i y).Perm (y :: (l.set i y).set j x) := set_perm_cons hj2
  exact ((h1.trans h2).cons_inv).symm

theorem iter_swap_perm (v : List α) (i j : Nat) : (iter_swap v i j).Perm v := by
  unfold iter_swap
  split
  · rename_i x y hx hy
    exact swap_perm hx hy
  · exact List.Perm.refl _

theorem assign_hole_perm {v : List α} {hole child : Nat} {c : α} (value : α)
    (hh : hole < v.length) (hc : v[child]? = some c) :
    ((assignAt v hole child).set child value).Perm (v.set hole value) := by
  unfold assignAt
  rw [hc]
  by_cases hne : hole = child
  · subst hne
    simp only [List.set_set]
    exact List.Perm.refl _
  · have h1 : (v.set hole value)[hole]? = some value := by
      rw [List.getElem?_set]
      simp [hh]
    have h2 : (v.set hole value)[child]? = some c := by
      rw [List.getElem?_set_ne hne]
      exact hc
    have := swap_perm h1 h2
    simp only [List.set_set] at this
    exact this

theorem move_median_to_first_perm (comp : α → α → Bool) (v : List α) (result a b c : Nat) :
    (move_median_to_first comp v result a b c).Perm v := by
  unfold move_median_to_first
  repeat' split
  all_goals exact iter_swap_perm _ _ _

theorem unguarded_partition_perm (comp : α → α → Bool) (pivot fuel : Nat) (v : List α)
    (first last : Nat) : (unguarded_partition comp pivot fuel v first last).1.Perm v := by
  induction fuel generalizing v first last with
  | zero => exact List.Perm.refl _
  | succ fuel ih =>
    unfold unguarded_partition
    simp only
    split
    · exact List.Perm.refl _
    · exact (ih _ _ _).trans (iter_swap_perm _ _ _)

theorem unguarded_partition_pivot_perm (comp : α → α → Bool) (v : List α) (first last : Nat) :
    (unguarded_partition_pivot comp v first last).1.Perm v := by
  unfold unguarded_partition_pivot
  exact (unguarded_partition_perm _ _ _ _ _ _).trans (move_median_to_first_perm _ _ _ _ _ _)

theorem set_self {v : List α} {i : Nat} {x : α} (h : v[i]? = some x) : v.set i x = v := by
  apply List.ext_getElem?
  intro n
  rw [List.getElem?_set]
  split
  · rename_i hin
    subst hin
    have hlt : i < v.length := (List.getElem?_eq_some.mp h).1
    simp [hlt, h]
  · rfl

theorem exists_getElem? {v : List α} {i : Nat} (h : i < v.length) : ∃ c, v[i]? = some c :=
  ⟨v[i], List.getElem?_eq_getElem h⟩

theorem push_heap_perm (comp : α → α → Bool) (first topIndex : Nat) (value : α) (fuel : Nat)
    (v : List α) (holeIndex : Nat) (hb : first + holeIndex < v.length) :
    (push_heap comp first topIndex value fuel v holeIndex).Perm
      (v.set (first + holeIndex) value) := by
  induction fuel generalizing v holeIndex with
  | zero => exact List.Perm.refl _
  | succ fuel ih =>
    unfold push_heap
    simp only
    split
    · have hp : first + (holeIndex - 1) / 2 < v.length := by omega
      obtain ⟨c, hc⟩ := exists_getElem? hp
      have h1 := assign_hole_perm value hb hc
      have hlen : first + (holeIndex - 1) / 2
          < (assignAt v (first + holeIndex) (first + (holeIndex - 1) / 2)).length := by
        rw [length_assignAt]
        exact hp
      exact (ih _ _ hlen).trans h1
    · exact List.Perm.refl _

theorem adjust_heap_down_spec (comp : α → α → Bool) (first len : Nat) (value : α) (fuel : Nat)
    (v : List α) (hole : Nat) (hlen : first + len ≤ v.length) (hh : hole < len) :
    (adjust_heap_down comp first len fuel v hole hole).2.1 < len ∧
    (adjust_heap_down comp first len fuel v hole hole).2.2
      = (adjust_heap_down comp first len fuel v hole hole).2.1 ∧
    ((adjust_heap_down comp first len fuel v hole hole).1.set
      (first + (adjust_heap_down comp first len fuel v hole hole).2.1) value).Perm
      (v.set (first + hole) value) := by
  induction fuel generalizing v hole with
  | zero => exact ⟨hh, rfl, List.Perm.refl _⟩
  | succ fuel ih =>
    unfold adjust_heap_down
    split
    · rename_i hlt
      simp only
      generalize hsc : (if compIterIter comp v (first + 2 * (hole + 1)) (first + (2 * (hole + 1) - 1)) = true
        then 2 * (hole + 1) - 1 else 2 * (hole + 1)) = child
      have hchild : child < len := by
        rw [← hsc]
        split <;> omega
      obtain ⟨c, hc⟩ := exists_getElem? (show first + child < v.length by omega)
      have h1 := assign_hole_perm value (show first + hole < v.length by omega) hc
      have hlen2 : first + len ≤ (assignAt v (first + hole) (first + child)).length := by
        rw [length_assignAt]
        exact hlen
      obtain ⟨r1, r2, r3⟩ := ih (assignAt v (first + hole) (first + child)) child hlen2 hchild
      exact ⟨r1, r2, r3.trans h1⟩
    · exact ⟨hh, rfl, List.Perm.refl _⟩

theorem adjust_heap_perm (comp : α → α → Bool) (v : List α) (first hole len : Nat) (value : α)
    (hlen : first + len ≤ v.length) (hh : hole < len) :
    (adjust_heap comp v first hole len value).Perm (v.set (first + hole) value) := by
  unfold adjust_heap
  obtain ⟨r1, r2, r3⟩ := adjust_heap_down_spec comp first len value len v hole hlen hh
  generalize adjust_heap_down comp first len len v hole hole = r at r1 r2 r3
  obtain ⟨w, h, sc⟩ := r
  simp only at r1 r2 r3 ⊢
  rw [r2]
  have hwlen : w.length = v.length := by
    have := r3.length_eq
    simpa using this
  split
  · rename_i hcond
    rw [Bool.and_eq_true, beq_iff_eq, beq_iff_eq] at hcond
    have hchild : 2 * (h + 1) - 1 < len := by omega
    obtain ⟨c, hc⟩ := exists_getElem? (show first + (2 * (h + 1) - 1) < w.length by omega)
    have h1 := assign_hole_perm value (show first + h < w.length by omega) hc
    have h2 := push_heap_perm comp first hole value len
      (assignAt w (first + h) (first + (2 * (h + 1) - 1))) (2 * (h + 1) - 1)
      (by rw [length_assignAt]; omega)
    exact (h2.trans h1).trans r3
  · exact (push_heap_perm comp first hole value len w h (by omega)).trans r3

theorem pop_heap_perm (comp : α → α → Bool) (v : List α) (first last result : Nat)
    (hfl : first < last) (hlast : last ≤ v.length) :
    (pop_heap comp v first last result).Perm v := by
  unfold pop_heap
  split
  · rename_i value hres
    obtain ⟨f, hf⟩ := exists_getElem? (show first < v.length by omega)
    have h1 := adjust_heap_perm comp (assignAt v result first) first 0 (last - first) value
      (by rw [length_assignAt]; omega) (by omega)
    refine h1.trans ?_
    unfold assignAt
    rw [hf]
    exact swap_perm hres hf
  · exact List.Perm.refl _

theorem make_heap_loop_perm (comp : α → α → Bool) (first len parent : Nat) (v : List α)
    (hlen : first + len ≤ v.length) (hp : parent < len) :
    (make_heap_loop comp first len parent v).Perm v := by
  induction parent generalizing v with
  | zero =>
    unfold make_heap_loop
    split
    · rename_i value hv
      have h1 := adjust_heap_perm comp v first 0 len value hlen hp
      rw [Nat.add_zero, set_self hv] at h1
      exact h1
    · exact List.Perm.refl _
  | succ parent ih =>
    unfold make_heap_loop
    split
    · rename_i value hv
      have h1 := adjust_heap_perm comp v first (parent + 1) len value hlen hp
      rw [set_self hv] at h1
      exact (ih _ (by rw [h1.length_eq]; exact hlen) (by omega)).trans h1
    · exact List.Perm.refl _

theorem make_heap_perm (comp : α → α → Bool) (v : List α) (first last : Nat)
    (hlast : last ≤ v.length) : (make_heap comp v first last).Perm v := by
  unfold make_heap
  split
  · exact List.Perm.refl _
  · exact make_heap_loop_perm comp first (last - first) _ v (by omega) (by omega)

theorem sort_heap_perm (comp : α → α → Bool) (first fuel : Nat) (v : List α) (last : Nat)
    (hlast : last ≤ v.length) : (sort_heap comp first fuel v last).Perm v := by
  induction fuel generalizing v last with
  | zero => exact List.Perm.refl _
  | succ fuel ih =>
    unfold sort_heap
    split
    · have h1 := pop_heap_perm comp v first (last - 1) (last - 1) (by omega) (by omega)
      exact (ih _ _ (by rw [h1.length_eq]; omega)).trans h1
    · exact List.Perm.refl _

theorem heap_select_loop_perm (comp : α → α → Bool) (first middle count : Nat) (v : List α)
    (i : Nat) (hfm : first < middle) (hmid : middle ≤ v.length) :
    (heap_select_loop comp first middle count v i).Perm v := by
  induction count generalizing v i with
  | zero => exact List.Perm.refl _
  | succ count ih =>
    unfold heap_select_loop
    split
    · have h1 := pop_heap_perm comp v first middle i hfm hmid
      exact (ih _ _ (by rw [h1.length_eq]; exact hmid)).trans h1
    · exact ih _ _ hmid

theorem heap_sort_range_perm (comp : α → α → Bool) (v : List α) (first middle last : Nat)
    (hfm : first < middle) (hmid : middle ≤ v.length) :
    (heap_sort_range comp v first middle last).Perm v := by
  unfold heap_sort_range heap_select
  have h1 := make_heap_perm comp v first middle hmid
  have h2 := heap_select_loop_perm comp first middle (last - middle)
    (make_heap comp v first middle) middle hfm (by rw [h1.length_eq]; exact hmid)
  have h3 := sort_heap_perm comp first (middle - first)
    (heap_select_loop comp first middle (last - middle) (make_heap comp v first middle) middle)
    middle (by rw [h2.length_eq, h1.length_eq]; exact hmid)
  exact (h3.trans h2).trans h1

theorem scanUp_le (comp : α → α → Bool) (v : List α) (pivot fuel first : Nat)
    (h : first ≤ v.length) : scanUp comp v pivot fuel first ≤ v.length := by
  induction fuel generalizing first with
  | zero => exact h
  | succ fuel ih =>
    unfold scanUp
    split
    · rename_i hc
      apply ih
      unfold compIterIter at hc
      split at hc
      · rename_i x y hx hy
        have := (List.getElem?_eq_some.mp hx).1
        omega
      · exact absurd hc (by decide)
    · exact h

theorem scanDown_le (comp : α → α → Bool) (v : List α) (pivot fuel last : Nat) :
    scanDown comp v pivot fuel last ≤ last := by
  induction fuel generalizing last with
  | zero => exact Nat.le_refl _
  | succ fuel ih =>
    unfold scanDown
    split
    · exact Nat.le_trans (ih _) (Nat.sub_le _ _)
    · exact Nat.le_refl _

theorem unguarded_partition_cut_le (comp : α → α → Bool) (pivot fuel : Nat) (v : List α)
    (first last : Nat) (hf : first ≤ v.length) (hl : last ≤ v.length) :
    (unguarded_partition comp pivot fuel v first last).2 ≤ v.length := by
  induction fuel generalizing v first last with
  | zero => exact hf
  | succ fuel ih =>
    unfold unguarded_partition
    simp only
    have h1 := scanUp_le comp v pivot v.length first hf
    have h2 := scanDown_le comp v pivot v.length (last - 1)
    split
    · exact h1
    · rename_i hlt
      simp at hlt
      have := ih (iter_swap v (scanUp comp v pivot v.length first)
        (scanDown comp v pivot v.length (last - 1))) (scanUp comp v pivot v.length first + 1)
        (scanDown comp v pivot v.length (last - 1))
        (by rw [length_iter_swap]; omega) (by rw [length_iter_swap]; omega)
      rw [length_iter_swap] at this
      exact this

theorem introsort_loop_perm (comp : α → α → Bool) (depth_limit : Nat) (v : List α)
    (first last : Nat) (hlast : last ≤ v.length) :
    (introsort_loop comp depth_limit v first last).Perm v := by
  induction depth_limit generalizing v first last with
  | zero =>
    unfold introsort_loop
    split
    · rename_i h
      unfold S_threshold at h
      exact heap_sort_range_perm comp v first last last (by omega) hlast
    · exact List.Perm.refl _
  | succ depth_limit ih =>
    unfold introsort_loop
    split
    · rename_i h
      unfold S_threshold at h
      have hp := unguarded_partition_pivot_perm comp v first last
      have hcut : (unguarded_partition_pivot comp v first last).2 ≤ v.length := by
        unfold unguarded_partition_pivot
        have hm := move_median_to_first_perm comp v first (first + 1)
          (first + (last - first) / 2) (last - 1)
        have := unguarded_partition_cut_le comp first
          (move_median_to_first comp v first (first + 1) (first + (last - first) / 2)
            (last - 1)).length
          (move_median_to_first comp v first (first + 1) (first + (last - first) / 2) (last - 1))
          (first + 1) last (by rw [hm.length_eq]; omega) (by rw [hm.length_eq]; omega)
        exact Nat.le_trans this (Nat.le_of_eq hm.length_eq)
      generalize unguarded_partition_pivot comp v first last = r at hp hcut
      obtain ⟨w, cut⟩ := r
      simp only at hp hcut ⊢
      have h1 := ih w cut last (by rw [hp.length_eq]; exact hlast)
      have h2 := ih (introsort_loop comp depth_limit w cut last) first cut
        (by rw [h1.length_eq, hp.length_eq]; exact hcut)
      exact (h2.trans h1).trans hp
    · exact List.Perm.refl _

theorem getElem?_append_length (P : List α) (x : α) (R : List α) :
    (P ++ x :: R)[P.length]? = some x := by
  rw [List.getElem?_append_right (Nat.le_refl _), Nat.sub_self]
  exact List.getElem?_cons_zero

theorem set_append_length (P : List α) (x y : α) (R : List α) :
    (P ++ x :: R).set P.length y = P ++ y :: R := by
  simp

theorem unguarded_linear_insert_loop_spec (comp : α → α → Bool) (val : α) (Q : List α)
    (y : α) (R : List α) (fuel : Nat) (hfuel : Q.length < fuel) :
    unguarded_linear_insert_loop comp val fuel (Q.reverse ++ y :: R) Q.length
      = (insertBackRev comp val Q).reverse ++ R := by
  induction Q generalizing y R fuel with
  | nil =>
    cases fuel with
    | zero => exact absurd hfuel (Nat.lt_irrefl _)
    | succ fuel => simp [unguarded_linear_insert_loop, insertBackRev]
  | cons z Q ih =>
    cases fuel with
    | zero => exact absurd hfuel (Nat.not_lt_zero _)
    | succ fuel =>
      have hz : (Q.reverse ++ z :: y :: R)[Q.length]? = some z := by
        have := getElem?_append_length Q.reverse z (y :: R)
        rwa [List.length_reverse] at this
      have hv : (z :: Q).reverse ++ y :: R = Q.reverse ++ z :: y :: R := by simp
      rw [hv]
      simp only [List.length_cons]
      unfold unguarded_linear_insert_loop
      unfold compValIter
      rw [hz]
      simp only
      have hset : ∀ w : α, (Q.reverse ++ z :: y :: R).set (Q.length + 1) w
          = Q.reverse ++ z :: w :: R := by
        intro w
        simp
      by_cases hc : comp val z = true
      · rw [if_pos hc]
        unfold assignAt
        rw [hz]
        simp only
        rw [hset z, ih z (z :: R) fuel (by simpa using hfuel)]
        simp [insertBackRev, hc]
      · rw [if_neg hc, hset val]
        simp [insertBackRev, hc]

theorem insertBackRev_perm (comp : α → α → Bool) (val : α) (Q : List α) :
    (insertBackRev comp val Q).Perm (val :: Q) := by
  induction Q with
  | nil => exact List.Perm.refl _
  | cons z Q ih =>
    unfold insertBackRev
    split
    · exact (List.Perm.cons z ih).trans (List.Perm.swap val z Q)
    · exact List.Perm.refl _

theorem insertBack_perm (comp : α → α → Bool) (val : α) (P : List α) :
    (insertBack comp val P).Perm (val :: P) := by
  unfold insertBack
  exact (List.reverse_perm _).trans
    ((insertBackRev_perm comp val P.reverse).trans (List.Perm.cons val (List.reverse_perm P)))

theorem insertStep_perm (comp : α → α → Bool) (val : α) (P : List α) :
    (insertStep comp val P).Perm (val :: P) := by
  unfold insertStep
  split
  · exact List.Perm.refl _
  · split
    · exact List.Perm.refl _
    · exact insertBack_perm comp val _

theorem move_backward_spec (val : α) (Q : List α) (y : α) (R : List α) :
    (move_backward Q.length (Q.reverse ++ y :: R) Q.length (Q.length + 1)).set 0 val
      = val :: (Q.reverse ++ R) := by
  induction Q generalizing y R with
  | nil => simp [move_backward]
  | cons z Q ih =>
    have hz : (Q.reverse ++ z :: y :: R)[Q.length]? = some z := by
      have := getElem?_append_length Q.reverse z (y :: R)
      rwa [List.length_reverse] at this
    have hv : (z :: Q).reverse ++ y :: R = Q.reverse ++ z :: y :: R := by simp
    have hset : (Q.reverse ++ z :: y :: R).set (Q.length + 1) z = Q.reverse ++ z :: z :: R := by
      simp
    rw [hv]
    simp only [List.length_cons]
    unfold move_backward
    simp only [Nat.add_sub_cancel]
    unfold assignAt
    rw [hz]
    simp only
    rw [hset, ih z (z :: R)]
    simp

theorem unguarded_linear_insert_spec (comp : α → α → Bool) (P : List α) (x : α) (R : List α) :
    unguarded_linear_insert comp (P ++ x :: R) P.length = insertBack comp x P ++ R := by
  unfold unguarded_linear_insert
  rw [getElem?_append_length]
  simp only
  have := unguarded_linear_insert_loop_spec comp x P.reverse x R (P ++ x :: R).length
    (by simp)
  rw [List.reverse_reverse, List.length_reverse] at this
  rw [this]
  rfl

theorem insertion_sort_step_spec (comp : α → α → Bool) (P : List α) (x : α) (R : List α) :
    insertion_sort_step comp 0 (P ++ x :: R) P.length = insertStep comp x P ++ R := by
  unfold insertion_sort_step
  cases P with
  | nil =>
    have h0 : ([] ++ x :: R : List α)[([] : List α).length]? = some x := by simp
    unfold compIterIter
    rw [h0]
    simp only
    split
    · simp [move_backward, insertStep]
    · have := unguarded_linear_insert_spec comp [] x R
      rw [this]
      rfl
  | cons p P =>
    have hx := getElem?_append_length (p :: P) x R
    have h0 : (p :: P ++ x :: R)[0]? = some p := by simp
    unfold compIterIter
    rw [hx, h0]
    simp only
    by_cases hc : comp x p = true
    · rw [if_pos hc]
      have := move_backward_spec x (p :: P).reverse x R
      rw [List.reverse_reverse, List.length_reverse] at this
      rw [Nat.sub_zero, this]
      simp [insertStep, hc]
    · rw [if_neg hc, unguarded_linear_insert_spec]
      simp [insertStep, hc]

theorem insertion_sort_loop_spec (comp : α → α → Bool) (xs : List α) (P R : List α) :
    insertion_sort_loop comp 0 xs.length (P ++ xs ++ R) P.length
      = xs.foldl (fun range x => insertStep comp x range) P ++ R := by
  induction xs generalizing P with
  | nil => simp [insertion_sort_loop]
  | cons x xs ih =>
    simp only [List.length_cons, List.foldl_cons]
    unfold insertion_sort_loop
    have h1 : P ++ x :: xs ++ R = P ++ x :: (xs ++ R) := by simp
    rw [h1, insertion_sort_step_spec]
    have hlen : (insertStep comp x P).length = P.length + 1 :=
      (insertStep_perm comp x P).length_eq
    have := ih (insertStep comp x P)
    rw [hlen] at this
    rw [← this]
    simp

theorem unguarded_insertion_sort_spec (comp : α → α → Bool) (xs : List α) (P R : List α) :
    unguarded_insertion_sort comp xs.length (P ++ xs ++ R) P.length
      = xs.foldl (fun range x => insertBack comp x range) P ++ R := by
  induction xs generalizing P with
  | nil => simp [unguarded_insertion_sort]
  | cons x xs ih =>
    simp only [List.length_cons, List.foldl_cons]
    unfold unguarded_insertion_sort
    have h1 : P ++ x :: xs ++ R = P ++ x :: (xs ++ R) := by simp
    rw [h1, unguarded_linear_insert_spec]
    have hlen : (insertBack comp x P).length = P.length + 1 :=
      (insertBack_perm comp x P).length_eq
    have := ih (insertBack comp x P)
    rw [hlen] at this
    rw [← this]
    simp

theorem foldl_insertStep_perm (comp : α → α → Bool) (xs P : List α) :
    (xs.foldl (fun range x => insertStep comp x range) P).Perm (P ++ xs) := by
  induction xs generalizing P with
  | nil => simp
  | cons x xs ih =>
    rw [List.foldl_cons]
    refine (ih _).trans ?_
    refine ((insertStep_perm comp x P).append_right xs).trans ?_
    exact List.perm_middle.symm

theorem foldl_insertBack_perm (comp : α → α → Bool) (xs P : List α) :
    (xs.foldl (fun range x => insertBack comp x range) P).Perm (P ++ xs) := by
  induction xs generalizing P with
  | nil => simp
  | cons x xs ih =>
    rw [List.foldl_cons]
    refine (ih _).trans ?_
    refine ((insertBack_perm comp x P).append_right xs).trans ?_
    exact List.perm_middle.symm

theorem finalInsertionSorted_cons (comp : α → α → Bool) (first : α) (rest : List α) :
    finalInsertionSorted comp (first :: rest) =
      (rest.drop 15).foldl (fun range x => insertBack comp x range)
        ((rest.take 15).foldl (fun range x => insertStep comp x range) [first]) := rfl

theorem final_insertion_sort_spec (comp : α → α → Bool) (v : List α) :
    final_insertion_sort comp v 0 v.length = finalInsertionSorted comp v := by
  cases v with
  | nil => simp [final_insertion_sort, insertion_sort, finalInsertionSorted, S_threshold]
  | cons first rest =>
    rw [finalInsertionSorted_cons]
    unfold final_insertion_sort S_threshold
    by_cases hlen : (first :: rest).length - 0 > 16
    · rw [if_pos hlen]
      simp only [List.length_cons, Nat.sub_zero] at hlen
      have hsplit : first :: rest = [first] ++ rest.take 15 ++ rest.drop 15 := by simp
      have htake : (rest.take 15).length = 15 := by
        rw [List.length_take]
        omega
      have h1 : insertion_sort comp (first :: rest) 0 (0 + 16)
          = (rest.take 15).foldl (fun range x => insertStep comp x range) [first]
            ++ rest.drop 15 := by
        unfold insertion_sort
        have := insertion_sort_loop_spec comp (rest.take 15) [first] (rest.drop 15)
        rw [htake, ← hsplit] at this
        simpa using this
      have hS : ((rest.take 15).foldl (fun range x => insertStep comp x range) [first]).length
          = 16 := by
        rw [(foldl_insertStep_perm comp (rest.take 15) [first]).length_eq]
        simp [htake]
      rw [h1]
      have h2 := unguarded_insertion_sort_spec comp (rest.drop 15)
        ((rest.take 15).foldl (fun range x => insertStep comp x range) [first]) []
      rw [hS, List.append_nil, List.append_nil] at h2
      have hdrop : (rest.drop 15).length = (first :: rest).length - (0 + 16) := by
        simp
      rw [← hdrop]
      simpa using h2
    · rw [if_neg hlen]
      simp only [List.length_cons, Nat.sub_zero, gt_iff_lt, not_lt] at hlen
      have htake : rest.take 15 = rest := List.take_of_length_le (by omega)
      have hdrop : rest.drop 15 = [] := List.drop_of_length_le (by omega)
      rw [htake, hdrop]
      unfold insertion_sort
      have := insertion_sort_loop_spec comp rest [first] []
      simpa using this

end Libstdcxx

theorem StrictWeakOrdering.asymm {α : Type} {comp : α → α → Bool} (h : StrictWeakOrdering comp)
    {a b : α} (hab : comp a b = true) : comp b a = false := by
  cases hba : comp b a with
  | false => rfl
  | true =>
    have := h.2.1 a b a hab hba
    rw [h.1 a] at this
    exact absurd this (by decide)

theorem StrictWeakOrdering.neg_trans {α : Type} {comp : α → α → Bool}
    (h : StrictWeakOrdering comp) {a b c : α} (hab : comp b a = false) (hbc : comp c b = false) :
    comp c a = false := by
  cases hca : comp c a with
  | false => rfl
  | true =>
    cases h1 : comp a b with
    | true =>
      have := h.2.1 c a b hca h1
      rw [hbc] at this
      exact absurd this (by decide)
    | false =>
      cases h2 : comp b c with
      | true =>
        have := h.2.1 b c a h2 hca
        rw [hab] at this
        exact absurd this (by decide)
      | false =>
        have := (h.2.2 a b c ⟨h1, hab⟩ ⟨h2, hbc⟩).2
        rw [hca] at this
        exact absurd this (by decide)

namespace Libstdcxx

variable {α : Type}

theorem insertBackRev_sorted (comp : α → α → Bool) (hswo : StrictWeakOrdering comp) (val : α)
    (Q : List α) (hQ : Q.Pairwise (fun a b => comp a b = false)) :
    (insertBackRev comp val Q).Pairwise (fun a b => comp a b = false) := by
  induction Q with
  | nil => simp [insertBackRev]
  | cons z Q ih =>
    rw [List.pairwise_cons] at hQ
    unfold insertBackRev
    split
    · rename_i hc
      rw [List.pairwise_cons]
      refine ⟨?_, ih hQ.2⟩
      intro b hb
      rcases (List.mem_cons.mp ((insertBackRev_perm comp val Q).mem_iff.mp hb)) with hb | hb
      · rw [hb]
        exact hswo.asymm hc
      · exact hQ.1 b hb
    · rename_i hc
      have hc2 : comp val z = false := by
        cases h : comp val z with
        | false => rfl
        | true => exact absurd h hc
      rw [List.pairwise_cons]
      refine ⟨?_, List.pairwise_cons.mpr hQ⟩
      intro b hb
      rcases List.mem_cons.mp hb with hb | hb
      · rw [hb]
        exact hc2
      · exact hswo.neg_trans (hQ.1 b hb) hc2

theorem insertBack_sorted (comp : α → α → Bool) (hswo : StrictWeakOrdering comp) (val : α)
    (P : List α) (hP : P.Pairwise (fun a b => comp b a = false)) :
    (insertBack comp val P).Pairwise (fun a b => comp b a = false) := by
  unfold insertBack
  rw [List.pairwise_reverse]
  apply insertBackRev_sorted comp hswo
  rw [List.pairwise_reverse]
  exact hP

theorem insertStep_sorted (comp : α → α → Bool) (hswo : StrictWeakOrdering comp) (val : α)
    (P : List α) (hP : P.Pairwise (fun a b => comp b a = false)) :
    (insertStep comp val P).Pairwise (fun a b => comp b a = false) := by
  unfold insertStep
  split
  · simp
  · rename_i p rest
    split
    · rename_i hc
      rw [List.pairwise_cons]
      refine ⟨?_, hP⟩
      intro b hb
      rcases List.mem_cons.mp hb with hb | hb
      · rw [hb]
        exact hswo.asymm hc
      · have hbp : comp b p = false := (List.pairwise_cons.mp hP).1 b hb
        exact hswo.neg_trans (hswo.asymm hc) hbp
    · exact insertBack_sorted comp hswo val _ hP

theorem finalInsertionSorted_perm (comp : α → α → Bool) (v : List α) :
    (finalInsertionSorted comp v).Perm v := by
  cases v with
  | nil => exact List.Perm.refl _
  | cons first rest =>
    rw [finalInsertionSorted_cons]
    refine (foldl_insertBack_perm comp _ _).trans ?_
    refine ((foldl_insertStep_perm comp _ _).append_right _).trans ?_
    simp

theorem finalInsertionSorted_sorted (comp : α → α → Bool) (hswo : StrictWeakOrdering comp)
    (v : List α) : (finalInsertionSorted comp v).Pairwise (fun a b => comp b a = false) := by
  cases v with
  | nil => exact List.Pairwise.nil
  | cons first rest =>
    rw [finalInsertionSorted_cons]
    have h1 : ∀ (xs P : List α), P.Pairwise (fun a b => comp b a = false) →
        (xs.foldl (fun range x => insertStep comp x range) P).Pairwise
          (fun a b => comp b a = false) := by
      intro xs
      induction xs with
      | nil => intro P hP; exact hP
      | cons x xs ih => intro P hP; exact ih _ (insertStep_sorted comp hswo x P hP)
    have h2 : ∀ (xs P : List α), P.Pairwise (fun a b => comp b a = false) →
        (xs.foldl (fun range x => insertBack comp x range) P).Pairwise
          (fun a b => comp b a = false) := by
      intro xs
      induction xs with
      | nil => intro P hP; exact hP
      | cons x xs ih => intro P hP; exact ih _ (insertBack_sorted comp hswo x P hP)
    exact h2 _ _ (h1 _ _ (List.pairwise_singleton _ _))

/-- The `std::sort` of libstdc++ meets the postcondition the C++ standard gives
`std::sort`, on every vector, whenever the comparator is a strict weak ordering. -/
theorem sort_post (comp : α → α → Bool) (hswo : StrictWeakOrdering comp) (v : List α) :
    StdSortPost comp v (sort comp v) := by
  unfold sort
  split
  · have hp := introsort_loop_perm comp (lg v.length * 2) v 0 v.length (Nat.le_refl _)
    have hspec := final_insertion_sort_spec comp (introsort_loop comp (lg v.length * 2) v 0 v.length)
    rw [hp.length_eq] at hspec
    rw [hspec]
    exact ⟨(finalInsertionSorted_perm comp _).trans hp, finalInsertionSorted_sorted comp hswo _⟩
  · rename_i h
    have : v = [] := by
      cases v with
      | nil => rfl
      | cons a l => simp at h
    subst this
    exact ⟨List.Perm.refl _, List.Pairwise.nil⟩

/-! ### Insertion sort keeps the order of equivalent elements -/

theorem filter_key_swap {κ : Type} [BEq κ] [LawfulBEq κ] (key : α → κ) (k : κ) (x z : α)
    (hne : key x ≠ key z) :
    [x, z].filter (fun a => key a == k) = [z, x].filter (fun a => key a == k) := by
  by_cases hx : key x = k
  · have hz : ¬ key z = k := fun h => hne (hx.trans h.symm)
    simp [List.filter_cons, hx, hz]
  · simp [List.filter_cons, hx]

theorem insertBackRev_filter {κ : Type} [BEq κ] [LawfulBEq κ] (comp : α → α → Bool) (key : α → κ)
    (hkey : ∀ a b, comp a b = true → key a ≠ key b) (k : κ) (x : α) (Q : List α) :
    (insertBackRev comp x Q).reverse.filter (fun a => key a == k)
      = (Q.reverse ++ [x]).filter (fun a => key a == k) := by
  induction Q with
  | nil => rfl
  | cons z Q ih =>
    unfold insertBackRev
    split
    · rename_i hc
      have hsw := filter_key_swap key k x z (hkey x z hc)
      rw [List.reverse_cons, List.filter_append, ih, List.reverse_cons]
      simp only [List.filter_append, List.append_assoc]
      congr 1
      have hsw2 : ([x] ++ [z]).filter (fun a => key a == k)
          = ([z] ++ [x]).filter (fun a => key a == k) := hsw
      rw [List.filter_append, List.filter_append] at hsw2
      exact hsw2
    · simp

theorem insertBack_filter {κ : Type} [BEq κ] [LawfulBEq κ] (comp : α → α → Bool) (key : α → κ)
    (hkey : ∀ a b, comp a b = true → key a ≠ key b) (k : κ) (x : α) (P : List α) :
    (insertBack comp x P).filter (fun a => key a == k)
      = (P ++ [x]).filter (fun a => key a == k) := by
  unfold insertBack
  rw [insertBackRev_filter comp key hkey, List.reverse_reverse]

theorem insertStep_filter {κ : Type} [BEq κ] [LawfulBEq κ] (comp : α → α → Bool)
    (hswo : StrictWeakOrdering comp) (key : α → κ)
    (hkey : ∀ a b, comp a b = true → key a ≠ key b) (k : κ) (x : α) (P : List α)
    (hP : P.Pairwise (fun a b => comp b a = false)) :
    (insertStep comp x P).filter (fun a => key a == k)
      = (P ++ [x]).filter (fun a => key a == k) := by
  unfold insertStep
  split
  · rfl
  · rename_i p rest
    split
    · rename_i hc
      have hall : ∀ b ∈ p :: rest, key x ≠ key b := by
        intro b hb
        apply hkey
        rcases List.mem_cons.mp hb with hb | hb
        · rw [hb]
          exact hc
        · have hbp : comp b p = false := (List.pairwise_cons.mp hP).1 b hb
          cases hxb : comp x b with
          | true => rfl
          | false =>
            have := hswo.neg_trans hbp hxb
            rw [hc] at this
            exact absurd this (by decide)
      by_cases hx : key x = k
      · have hnil : (p :: rest).filter (fun a => key a == k) = [] := by
          rw [List.filter_eq_nil_iff]
          intro b hb hbk
          exact hall b hb (hx.trans (beq_iff_eq.mp hbk).symm)
        rw [List.filter_cons, List.filter_append, hnil]
        simp [hx]
      · rw [List.filter_cons, List.filter_append]
        simp [hx]
    · exact insertBack_filter comp key hkey k x _

theorem finalInsertionSorted_filter {κ : Type} [BEq κ] [LawfulBEq κ] (comp : α → α → Bool)
    (hswo : StrictWeakOrdering comp) (key : α → κ)
    (hkey : ∀ a b, comp a b = true → key a ≠ key b) (k : κ) (v : List α) :
    (finalInsertionSorted comp v).filter (fun a => key a == k)
      = v.filter (fun a => key a == k) := by
  cases v with
  | nil => rfl
  | cons first rest =>
    rw [finalInsertionSorted_cons]
    have h1 : ∀ (xs P : List α), P.Pairwise (fun a b => comp b a = false) →
        (xs.foldl (fun range x => insertStep comp x range) P).Pairwise
            (fun a b => comp b a = false) ∧
        (xs.foldl (fun range x => insertStep comp x range) P).filter (fun a => key a == k)
          = (P ++ xs).filter (fun a => key a == k) := by
      intro xs
      induction xs with
      | nil => intro P hP; exact ⟨hP, by simp⟩
      | cons x xs ih =>
        intro P hP
        obtain ⟨s1, s2⟩ := ih _ (insertStep_sorted comp hswo x P hP)
        refine ⟨s1, ?_⟩
        rw [List.foldl_cons, s2, List.filter_append, insertStep_filter comp hswo key hkey k x P hP]
        simp only [List.filter_append, List.append_assoc]
        congr 1
        exact (List.filter_append [x] xs).symm
    have h2 : ∀ (xs P : List α),
        (xs.foldl (fun range x => insertBack comp x range) P).filter (fun a => key a == k)
          = (P ++ xs).filter (fun a => key a == k) := by
      intro xs
      induction xs with
      | nil => intro P; simp
      | cons x xs ih =>
        intro P
        rw [List.foldl_cons, ih, List.filter_append, insertBack_filter comp key hkey k x P]
        simp only [List.filter_append, List.append_assoc]
        congr 1
        exact (List.filter_append [x] xs).symm
    rw [h2, List.filter_append, (h1 _ _ (List.pairwise_singleton _ _)).2, ← List.filter_append]
    simp

theorem introsort_loop_small (comp : α → α → Bool) (depth_limit : Nat) (v : List α)
    (first last : Nat) (h : last - first ≤ 16) :
    introsort_loop comp depth_limit v first last = v := by
  cases depth_limit with
  | zero =>
    unfold introsort_loop S_threshold
    rw [if_neg (by omega)]
  | succ d =>
    unfold introsort_loop S_threshold
    rw [if_neg (by omega)]

/-- Up to sixteen elements the `std::sort` of libstdc++ is an insertion sort and
keeps the order of elements with equal keys. -/
theorem sort_stable_of_length_le {κ : Type} [BEq κ] [LawfulBEq κ] (comp : α → α → Bool)
    (hswo : StrictWeakOrdering comp) (key : α → κ)
    (hkey : ∀ a b, comp a b = true → key a ≠ key b) (v : List α) (hlen : v.length ≤ 16)
    (k : κ) :
    (sort comp v).filter (fun a => key a == k) = v.filter (fun a => key a == k) := by
  unfold sort
  split
  · rw [introsort_loop_small comp _ v 0 v.length (by omega), final_insertion_sort_spec]
    exact finalInsertionSorted_filter comp hswo key hkey k v
  · rfl

end Libstdcxx

/-! ### The comparator -/

theorem adapterLess_eq_keyLexLess (preferred_adapter : String) (a b : DxvkAdapter) :
    adapterLess preferred_adapter a b =
      keyLexLess (rankingKey preferred_adapter a) (rankingKey preferred_adapter b) := by
  unfold adapterLess keyLexLess rankingKey
  cases is_preferred preferred_adapter a <;> cases is_preferred preferred_adapter b <;>
    cases is_discrete a <;> cases is_discrete b <;> rfl

theorem is_preferred_iff (preferred_adapter : String) (a : DxvkAdapter) :
    is_preferred preferred_adapter a = true ↔ a.deviceProperties.deviceName = preferred_adapter := by
  unfold is_preferred
  rw [beq_iff_eq]
  exact eq_comm

theorem is_discrete_iff (a : DxvkAdapter) :
    is_discrete a = true ↔ a.deviceProperties.deviceType = DISCRETE_GPU := by
  unfold is_discrete
  rw [beq_iff_eq]

theorem adapterLess_swo (preferred_adapter : String) :
    StrictWeakOrdering (adapterLess preferred_adapter) := by
  refine ⟨?_, ?_, ?_⟩
  · intro a
    unfold adapterLess
    cases is_preferred preferred_adapter a <;> cases is_discrete a <;> rfl
  · intro a b c
    unfold adapterLess
    cases is_preferred preferred_adapter a <;> cases is_preferred preferred_adapter b <;>
      cases is_preferred preferred_adapter c <;>
      cases is_discrete a <;> cases is_discrete b <;> cases is_discrete c <;> simp
  · intro a b c
    unfold adapterLess
    cases is_preferred preferred_adapter a <;> cases is_preferred preferred_adapter b <;>
      cases is_preferred preferred_adapter c <;>
      cases is_discrete a <;> cases is_discrete b <;> cases is_discrete c <;> simp

theorem adapterLess_key_ne (preferred_adapter : String) (a b : DxvkAdapter)
    (h : adapterLess preferred_adapter a b = true) :
    rankingKey preferred_adapter a ≠ rankingKey preferred_adapter b := by
  intro heq
  rw [adapterLess_eq_keyLexLess, heq] at h
  revert h
  rcases rankingKey preferred_adapter b with ⟨b₁, b₂⟩
  cases b₁ <;> cases b₂ <;> simp [keyLexLess]

/-- The `std::sort` of libstdc++ meets the postcondition of `std::sort` on every
call `queryAdapters` can make. -/
theorem libstdcxx_meets_post (preferred_adapter : String) (l : List DxvkAdapter) :
    StdSortPost (adapterLess preferred_adapter) l
      (Libstdcxx.sort (adapterLess preferred_adapter) l) :=
  Libstdcxx.sort_post _ (adapterLess_swo preferred_adapter) l

/-- C9: for every override string the comparator handed to `std::sort` is a
strict weak ordering on adapter records (irreflexive, asymmetric, transitive,
with transitive incomparability), and it is the lexicographic comparison of the
keys `(name equals override, class is discrete)` with `true` before `false`. -/
theorem adapterLess_strict_weak_ordering (preferred_adapter : String) :
    (∀ a, adapterLess preferred_adapter a a = false) ∧
    (∀ a b, adapterLess preferred_adapter a b = true →
      adapterLess preferred_adapter b a = false) ∧
    (∀ a b c, adapterLess preferred_adapter a b = true →
      adapterLess preferred_adapter b c = true → adapterLess preferred_adapter a c = true) ∧
    (∀ a b c,
      (adapterLess preferred_adapter a b = false ∧ adapterLess preferred_adapter b a = false) →
      (adapterLess preferred_adapter b c = false ∧ adapterLess preferred_adapter c b = false) →
      (adapterLess preferred_adapter a c = false ∧ adapterLess preferred_adapter c a = false)) ∧
    (∀ a b, adapterLess preferred_adapter a b =
      keyLexLess
        (decide (a.deviceProperties.deviceName = preferred_adapter),
         decide (a.deviceProperties.deviceType = DISCRETE_GPU))
        (decide (b.deviceProperties.deviceName = preferred_adapter),
         decide (b.deviceProperties.deviceType = DISCRETE_GPU))) := by
  refine ⟨?_, ?_, ?_, ?_, ?_⟩
  · intro a
    unfold adapterLess
    cases is_preferred preferred_adapter a <;> cases is_discrete a <;> rfl
  · intro a b
    unfold adapterLess
    cases is_preferred preferred_adapter a <;> cases is_preferred preferred_adapter b <;>
      cases is_discrete a <;> cases is_discrete b <;> simp
  · intro a b c
    unfold adapterLess
    cases is_preferred preferred_adapter a <;> cases is_preferred preferred_adapter b <;>
      cases is_preferred preferred_adapter c <;>
      cases is_discrete a <;> cases is_discrete b <;> cases is_discrete c <;> simp
  · intro a b c
    unfold adapterLess
    cases is_preferred preferred_adapter a <;> cases is_preferred preferred_adapter b <;>
      cases is_preferred preferred_adapter c <;>
      cases is_discrete a <;> cases is_discrete b <;> cases is_discrete c <;> simp
  · intro a b
    have ha : is_preferred preferred_adapter a
        = decide (a.deviceProperties.deviceName = preferred_adapter) := by
      rw [Bool.eq_iff_iff, is_preferred_iff, decide_eq_true_iff]
    have hb : is_preferred preferred_adapter b
        = decide (b.deviceProperties.deviceName = preferred_adapter) := by
      rw [Bool.eq_iff_iff, is_preferred_iff, decide_eq_true_iff]
    have hda : is_discrete a = decide (a.deviceProperties.deviceType = DISCRETE_GPU) := by
      rw [Bool.eq_iff_iff, is_discrete_iff, decide_eq_true_iff]
    have hdb : is_discrete b = decide (b.deviceProperties.deviceType = DISCRETE_GPU) := by
      rw [Bool.eq_iff_iff, is_discrete_iff, decide_eq_true_iff]
    rw [adapterLess_eq_keyLexLess]
    unfold rankingKey
    rw [ha, hb, hda, hdb]

/-- C4 (as stated, refuted): under the empty override an adapter whose device
name is the empty string is preferred, and the ranking puts such an integrated
device in front of a named discrete one. -/
theorem empty_override_matches_unnamed_device :
    unnamedDevice.deviceProperties.deviceName = "" ∧
    is_preferred "" unnamedDevice = true ∧
    rankAdapters Libstdcxx.sort "" [scenarioD1, unnamedDevice] = [unnamedDevice, scenarioD1] := by
  decide

/-- C4 (amended): `is_preferred` is the plain comparison `override == deviceName`
with no test for an empty override.  Under the empty override it is therefore
true exactly for the records whose device name is the empty string and false
for every record with a non-empty name; the comparator then compares the keys
`(name is empty, class is discrete)`, so a record with an empty name stands
before every named record, and two named records are compared by device class
only. -/
theorem empty_override_prefers_exactly_unnamed_devices (a b : DxvkAdapter) :
    (∀ preferred_adapter, is_preferred preferred_adapter a
      = decide (preferred_adapter = a.deviceProperties.deviceName)) ∧
    (is_preferred "" a = true ↔ a.deviceProperties.deviceName = "") ∧
    (is_preferred "" a = false ↔ a.deviceProperties.deviceName ≠ "") ∧
    adapterLess "" a b =
      keyLexLess (decide (a.deviceProperties.deviceName = ""), is_discrete a)
        (decide (b.deviceProperties.deviceName = ""), is_discrete b) ∧
    (a.deviceProperties.deviceName = "" → b.deviceProperties.deviceName ≠ "" →
      adapterLess "" a b = true ∧ adapterLess "" b a = false) ∧
    (a.deviceProperties.deviceName ≠ "" → b.deviceProperties.deviceName ≠ "" →
      adapterLess "" a b = (is_discrete a && !(is_discrete b))) := by
  have hdec : ∀ x : DxvkAdapter,
      is_preferred "" x = decide (x.deviceProperties.deviceName = "") := by
    intro x
    rw [Bool.eq_iff_iff, is_preferred_iff, decide_eq_true_iff]
  have hkey : adapterLess "" a b =
      keyLexLess (decide (a.deviceProperties.deviceName = ""), is_discrete a)
        (decide (b.deviceProperties.deviceName = ""), is_discrete b) := by
    rw [adapterLess_eq_keyLexLess]
    unfold rankingKey
    rw [hdec a, hdec b]
  have hkey2 : adapterLess "" b a =
      keyLexLess (decide (b.deviceProperties.deviceName = ""), is_discrete b)
        (decide (a.deviceProperties.deviceName = ""), is_discrete a) := by
    rw [adapterLess_eq_keyLexLess]
    unfold rankingKey
    rw [hdec a, hdec b]
  refine ⟨?_, is_preferred_iff "" a, ?_, hkey, ?_, ?_⟩
  · intro p
    rw [Bool.eq_iff_iff, is_preferred_iff, decide_eq_true_iff]
    exact eq_comm
  · rw [← Bool.not_eq_true, is_preferred_iff]
  · intro ha hb
    rw [hkey, hkey2, decide_eq_true ha, decide_eq_false hb]
    exact ⟨rfl, rfl⟩
  · intro ha hb
    rw [hkey, decide_eq_false ha, decide_eq_false hb]
    unfold keyLexLess
    simp

/-- The empty override on a device with an empty name and on the named devices
`D1` and `D2` of the scenarios: the unnamed integrated device is preferred and
stands before the discrete `D1`; `D1` and `D2` are not preferred and are
compared by class. -/
theorem empty_override_prefers_exactly_unnamed_devices_witness :
    is_preferred "" unnamedDevice = true ∧
    is_discrete unnamedDevice = false ∧
    is_discrete scenarioD1 = true ∧
    (adapterLess "" unnamedDevice scenarioD1 = true ∧
      adapterLess "" scenarioD1 unnamedDevice = false) ∧
    is_preferred "" scenarioD1 = false ∧
    adapterLess "" scenarioD1 scenarioD2 = (is_discrete scenarioD1 && !(is_discrete scenarioD2)) :=
  ⟨(empty_override_prefers_exactly_unnamed_devices unnamedDevice scenarioD1).2.1.mpr (by decide),
    by decide, by decide,
    (empty_override_prefers_exactly_unnamed_devices unnamedDevice scenarioD1).2.2.2.2.1
      (by decide) (by decide),
    (empty_override_prefers_exactly_unnamed_devices scenarioD1 scenarioD2).2.2.1.mpr (by decide),
    (empty_override_prefers_exactly_unnamed_devices scenarioD1 scenarioD2).2.2.2.2.2
      (by decide) (by decide)⟩

/-- C10: `enumAdapters(index)` returns the adapter stored at position `index`
when `index` is less than the number of adapters and null otherwise (so always
null on an empty list); it never reads outside the list and leaves the list as
it was. -/
theorem enumAdapters_spec (m_adapters : List (Rc DxvkAdapter)) (index : Nat) :
    (enumAdapters m_adapters index).2 = m_adapters ∧
    (enumAdapters m_adapters index).1 =
      (if h : index < m_adapters.length then some (m_adapters.get ⟨index, h⟩)
       else some Rc.null) ∧
    (enumAdapters m_adapters index).1 ≠ none ∧
    (enumAdapters [] index).1 = some Rc.null := by
  unfold enumAdapters vectorAt
  refine ⟨rfl, ?_, ?_, ?_⟩
  · by_cases h : index < m_adapters.length
    · simp [h]
    · simp [h]
  · by_cases h : index < m_adapters.length
    · simp [h]
    · simp [h]
  · simp

/-! ### Enumeration -/

theorem length_adaptersBuffer (m_vki : InstanceFn) :
    (adaptersBuffer m_vki).length = m_vki.enumCount.2 := by
  unfold adaptersBuffer
  simp only [List.length_take, List.length_append, List.length_replicate]
  omega

theorem wrapFrom_of_le (m_vki : InstanceFn) (adapters : List VkPhysicalDevice) (count i : Nat)
    (h : i + count ≤ adapters.length) :
    wrapFrom m_vki adapters count i
      = some (((adapters.drop i).take count).map (newDxvkAdapter m_vki)) := by
  induction count generalizing i with
  | zero => simp [wrapFrom]
  | succ count ih =>
    have hi : i < adapters.length := by omega
    have hd : adapters.drop i = adapters[i] :: adapters.drop (i + 1) :=
      List.drop_eq_getElem_cons hi
    unfold wrapFrom vectorAt
    rw [List.getElem?_eq_getElem hi]
    simp only
    rw [ih (i + 1) (by omega), hd]
    rfl

theorem wrapFrom_of_lt (m_vki : InstanceFn) (adapters : List VkPhysicalDevice) (count i : Nat)
    (hi : i ≤ adapters.length) (h : adapters.length < i + count) :
    wrapFrom m_vki adapters count i = none := by
  induction count generalizing i with
  | zero => omega
  | succ count ih =>
    unfold wrapFrom vectorAt
    rcases Nat.lt_or_ge i adapters.length with hlt | hge
    · rw [List.getElem?_eq_getElem hlt]
      simp only
      rw [ih (i + 1) (by omega) (by omega)]
    · rw [List.getElem?_eq_none hge]

theorem wrappedAdapters_of_le (m_vki : InstanceFn)
    (hbound : numAdaptersFetched m_vki ≤ m_vki.enumCount.2) :
    wrappedAdapters m_vki
      = some (((adaptersBuffer m_vki).take (numAdaptersFetched m_vki)).map
          (newDxvkAdapter m_vki)) := by
  unfold wrappedAdapters
  rw [wrapFrom_of_le m_vki _ _ 0 (by rw [length_adaptersBuffer]; omega)]
  rfl

theorem wrappedAdapters_of_lt (m_vki : InstanceFn)
    (hbound : m_vki.enumCount.2 < numAdaptersFetched m_vki) :
    wrappedAdapters m_vki = none := by
  unfold wrappedAdapters
  exact wrapFrom_of_lt m_vki _ _ 0 (Nat.zero_le _) (by rw [length_adaptersBuffer]; omega)

theorem queryAdapters_result
    (sort : (DxvkAdapter → DxvkAdapter → Bool) → List DxvkAdapter → List DxvkAdapter)
    (m_vki : InstanceFn) (testAdapter : DxvkAdapter → Bool) (preferred_adapter : String) :
    (queryAdapters sort m_vki testAdapter preferred_adapter).result =
      if m_vki.enumCount.1 = VK_SUCCESS ∧ (fetchAnswer m_vki).1 = VK_SUCCESS then
        match wrappedAdapters m_vki with
        | none => .undefined
        | some wrapped =>
          .returned (rankAdapters sort preferred_adapter (wrapped.filter testAdapter))
      else .threw enumFailed := by
  unfold queryAdapters
  by_cases hc : m_vki.enumCount.1 = VK_SUCCESS
  · by_cases hf : (fetchAnswer m_vki).1 = VK_SUCCESS
    · simp only [hc, hf, bne_self_eq_false, Bool.false_eq_true, if_false, and_self, if_true]
      cases wrappedAdapters m_vki with
      | none => rfl
      | some wrapped =>
        simp only
        split <;> rfl
    · simp [hc, hf]
  · simp [hc]

theorem queryAdapters_calls
    (sort : (DxvkAdapter → DxvkAdapter → Bool) → List DxvkAdapter → List DxvkAdapter)
    (m_vki : InstanceFn) (testAdapter : DxvkAdapter → Bool) (preferred_adapter : String)
    (hcount : m_vki.enumCount.1 = VK_SUCCESS) :
    (queryAdapters sort m_vki testAdapter preferred_adapter).calls =
      [DriverCall.vkEnumeratePhysicalDevices none,
       DriverCall.vkEnumeratePhysicalDevices
         (if m_vki.enumCount.2 = 0 then none else some m_vki.enumCount.2)] := by
  unfold queryAdapters
  simp only [hcount, bne_self_eq_false, Bool.false_eq_true, if_false]
  by_cases hf : (fetchAnswer m_vki).1 = VK_SUCCESS
  · simp only [hf, bne_self_eq_false, Bool.false_eq_true, if_false]
    cases wrappedAdapters m_vki with
    | none => rfl
    | some wrapped =>
      simp only
      split <;> rfl
  · have hb : ((fetchAnswer m_vki).1 != VK_SUCCESS) = true := bne_iff_ne.mpr hf
    simp only [hb, if_true]
    rfl

/-- C6 (as stated, refuted): with the driver that loses a device between the
calls, both calls succeed and the first stores 3, yet the second stores 2 and
`queryAdapters` wraps two records, not three; with the driver that gains a
device, the first call stores 0 and the wrapped list is not the empty list: the
loop runs to the stored count 1 and reads outside the empty vector. -/
theorem wrapped_length_differs_from_count :
    shrinkingDriver.enumCount = (VK_SUCCESS, 3) ∧
    (fetchAnswer shrinkingDriver).1 = VK_SUCCESS ∧
    wrappedAdapters shrinkingDriver = some [scenarioD1, scenarioD2] ∧
    [scenarioD1, scenarioD2].length ≠ shrinkingDriver.enumCount.2 ∧
    (queryAdapters Libstdcxx.sort shrinkingDriver (fun _ => true) "").result
      = .returned [scenarioD1, scenarioD2] ∧
    hotplugDriver.enumCount = (VK_SUCCESS, 0) ∧
    (fetchAnswer hotplugDriver).1 = VK_SUCCESS ∧
    wrappedAdapters hotplugDriver ≠ some [] := by
  decide

/-- C6 (amended): whenever both enumeration calls succeed, the buffer handed to
the second call has exactly the length `n` stored by the first (a null buffer
for `n = 0`), and the loop wraps one record for each index below the count the
second call stores back, a count the code does not compare with `n`.  When that
count is at most `n`, the wrapped list has exactly that length, which may be
smaller than `n`, and holds the leading entries of the buffer, and the method
returns; so for `n = 0` and a stored count of 0 it is the empty list and no
error is raised. -/
theorem wrapped_length_is_fetch_count
    (sort : (DxvkAdapter → DxvkAdapter → Bool) → List DxvkAdapter → List DxvkAdapter)
    (m_vki : InstanceFn) (testAdapter : DxvkAdapter → Bool) (preferred_adapter : String)
    (hcount : m_vki.enumCount.1 = VK_SUCCESS)
    (hfetch : (fetchAnswer m_vki).1 = VK_SUCCESS)
    (hbound : (fetchAnswer m_vki).2.1 ≤ m_vki.enumCount.2) :
    (adaptersBuffer m_vki).length = m_vki.enumCount.2 ∧
    (queryAdapters sort m_vki testAdapter preferred_adapter).calls =
      [DriverCall.vkEnumeratePhysicalDevices none,
       DriverCall.vkEnumeratePhysicalDevices
         (if m_vki.enumCount.2 = 0 then none else some m_vki.enumCount.2)] ∧
    (∃ raw, wrappedAdapters m_vki = some raw ∧
      raw.length = (fetchAnswer m_vki).2.1 ∧
      raw.map DxvkAdapter.handle = (adaptersBuffer m_vki).take (fetchAnswer m_vki).2.1 ∧
      (m_vki.enumCount.2 = 0 → raw = []) ∧
      (queryAdapters sort m_vki testAdapter preferred_adapter).result
        = .returned (rankAdapters sort preferred_adapter (raw.filter testAdapter))) := by
  have hb : numAdaptersFetched m_vki ≤ m_vki.enumCount.2 := hbound
  refine ⟨length_adaptersBuffer m_vki,
    queryAdapters_calls sort m_vki testAdapter preferred_adapter hcount, _,
    wrappedAdapters_of_le m_vki hb, ?_, ?_, ?_, ?_⟩
  · rw [List.length_map, List.length_take, length_adaptersBuffer]
    exact Nat.min_eq_left hb
  · rw [List.map_map]
    have : (DxvkAdapter.handle ∘ newDxvkAdapter m_vki) = id := by
      funext h
      rfl
    rw [this, List.map_id]
    rfl
  · intro h0
    have hz : numAdaptersFetched m_vki = 0 := by omega
    rw [hz]
    rfl
  · rw [queryAdapters_result, if_pos ⟨hcount, hfetch⟩, wrappedAdapters_of_le m_vki hb]

/-! ### Filtering and ranking -/

theorem StdSortPost.get_not_less {α : Type} {comp : α → α → Bool} {input output : List α}
    (h : StdSortPost comp input output) (i j : Nat) (hi : i < output.length)
    (hj : j < output.length) (hij : i < j) :
    comp (output.get ⟨j, hj⟩) (output.get ⟨i, hi⟩) = false :=
  List.pairwise_iff_get.mp h.2 ⟨i, hi⟩ ⟨j, hj⟩ hij

/-- C7: whenever enumeration succeeds (both calls succeed and the loop wraps
the records `raw` without leaving the vector), and `std::sort` meets its
postcondition on the call made (the routine of libstdc++ always does,
`libstdcxx_meets_post`), the sequence returned by `queryAdapters` is a
permutation of exactly the wrapped records the suitability predicate accepts: a
record occurs in it as often as among the accepted ones (never, if it is
rejected), nothing is dropped or duplicated, and it is empty if every record is
rejected. -/
theorem queryAdapters_perm_accepted
    (sort : (DxvkAdapter → DxvkAdapter → Bool) → List DxvkAdapter → List DxvkAdapter)
    (m_vki : InstanceFn) (testAdapter : DxvkAdapter → Bool) (preferred_adapter : String)
    (raw : List DxvkAdapter)
    (hcount : m_vki.enumCount.1 = VK_SUCCESS)
    (hfetch : (fetchAnswer m_vki).1 = VK_SUCCESS)
    (hraw : wrappedAdapters m_vki = some raw)
    (hsort : StdSortPost (adapterLess preferred_adapter) (raw.filter testAdapter)
      (sort (adapterLess preferred_adapter) (raw.filter testAdapter))) :
    ∃ adapters,
      (queryAdapters sort m_vki testAdapter preferred_adapter).result = .returned adapters ∧
      adapters.Perm (raw.filter testAdapter) ∧
      (∀ a, a ∈ adapters ↔ (a ∈ raw ∧ testAdapter a = true)) ∧
      (∀ a, adapters.count a = if testAdapter a = true then raw.count a else 0) ∧
      (raw.Nodup → adapters.Nodup) ∧
      ((∀ a ∈ raw, testAdapter a = false) → adapters = []) := by
  have hp : (rankAdapters sort preferred_adapter (raw.filter testAdapter)).Perm
      (raw.filter testAdapter) := hsort.1
  refine ⟨rankAdapters sort preferred_adapter (raw.filter testAdapter),
    ?_, hsort.1, ?_, ?_, ?_, ?_⟩
  · rw [queryAdapters_result, if_pos ⟨hcount, hfetch⟩, hraw]
  · intro a
    rw [hp.mem_iff, List.mem_filter]
  · intro a
    rw [hp.count_eq]
    by_cases ht : testAdapter a = true
    · rw [if_pos ht, List.count_filter ht]
    · rw [if_neg ht]
      apply List.count_eq_zero_of_not_mem
      intro hmem
      exact ht (List.mem_filter.mp hmem).2
  · intro hnd
    exact hp.nodup_iff.mpr (hnd.filter _)
  · intro hrej
    have hnil : raw.filter testAdapter = [] := by
      rw [List.filter_eq_nil_iff]
      intro a ha
      rw [hrej a ha]
      decide
    exact (hp.trans (List.Perm.of_eq hnil)).eq_nil

theorem adapterLess_of_preferred (preferred_adapter : String) (a b : DxvkAdapter)
    (ha : is_preferred preferred_adapter a = true) (hb : is_preferred preferred_adapter b = false) :
    adapterLess preferred_adapter a b = true := by
  unfold adapterLess
  rw [ha, hb]
  rfl

/-- C2: for every non-empty override string and every list of surviving
records, whenever `std::sort` meets its postcondition on the call made (the
routine of libstdc++ always does, `libstdcxx_meets_post`), every record whose
device name equals the override stands in the output before every record whose
device name differs from it, whatever their device classes; so an integrated
device that matches precedes a discrete one that does not. -/
theorem preferred_before_others
    (sort : (DxvkAdapter → DxvkAdapter → Bool) → List DxvkAdapter → List DxvkAdapter)
    (preferred_adapter : String) (survivors : List DxvkAdapter)
    (_hne : preferred_adapter ≠ "")
    (hsort : StdSortPost (adapterLess preferred_adapter) survivors
      (sort (adapterLess preferred_adapter) survivors))
    (i j : Nat) (hi : i < (rankAdapters sort preferred_adapter survivors).length)
    (hj : j < (rankAdapters sort preferred_adapter survivors).length)
    (hmatch : ((rankAdapters sort preferred_adapter survivors).get ⟨i, hi⟩).deviceProperties.deviceName
      = preferred_adapter)
    (hother : ((rankAdapters sort preferred_adapter survivors).get ⟨j, hj⟩).deviceProperties.deviceName
      ≠ preferred_adapter) :
    i < j := by
  by_contra hlt
  have hji : j < i := by
    rcases Nat.lt_or_ge i j with h | h
    · exact absurd h hlt
    · rcases Nat.lt_or_eq_of_le h with h | h
      · exact h
      · subst h
        exact absurd hmatch hother
  have hs := StdSortPost.get_not_less hsort j i hj hi hji
  have hp := (is_preferred_iff preferred_adapter _).mpr hmatch
  have hq : is_preferred preferred_adapter
      ((rankAdapters sort preferred_adapter survivors).get ⟨j, hj⟩) = false := by
    rw [← Bool.not_eq_true, is_preferred_iff]
    exact hother
  have ht := adapterLess_of_preferred preferred_adapter _ _ hp hq
  unfold rankAdapters at ht
  rw [ht] at hs
  exact Bool.noConfusion hs

theorem mem_keyClass {preferred_adapter : String} {l : List DxvkAdapter} {k : Bool × Bool}
    {x : DxvkAdapter} (h : x ∈ l.filter (fun a => rankingKey preferred_adapter a == k)) :
    rankingKey preferred_adapter x = k :=
  beq_iff_eq.mp (List.mem_filter.mp h).2

theorem count_keyClass (preferred_adapter : String) (l : List DxvkAdapter) (k : Bool × Bool)
    (a : DxvkAdapter) :
    (l.filter (fun x => rankingKey preferred_adapter x == k)).count a =
      if rankingKey preferred_adapter a = k then l.count a else 0 := by
  by_cases h : rankingKey preferred_adapter a = k
  · rw [if_pos h]
    exact List.count_filter (beq_iff_eq.mpr h)
  · rw [if_neg h]
    apply List.count_eq_zero_of_not_mem
    intro hmem
    exact h (mem_keyClass hmem)

theorem stableRank_perm (preferred_adapter : String) (l : List DxvkAdapter) :
    (stableRank preferred_adapter l).Perm l := by
  rw [List.perm_iff_count]
  intro a
  unfold stableRank
  simp only [List.count_append, count_keyClass]
  rcases h : rankingKey preferred_adapter a with ⟨b₁, b₂⟩
  cases b₁ <;> cases b₂ <;> simp

theorem pairwise_keyClass (preferred_adapter : String) (l : List DxvkAdapter) (k : Bool × Bool) :
    (l.filter (fun a => rankingKey preferred_adapter a == k)).Pairwise
      (fun x y => adapterLess preferred_adapter y x = false) := by
  apply List.Pairwise.imp_of_mem _ (List.pairwise_of_forall (R := fun _ _ => True) (fun _ _ => trivial))
  intro x y hx hy _
  rw [adapterLess_eq_keyLexLess, mem_keyClass hx, mem_keyClass hy]
  rcases k with ⟨b₁, b₂⟩
  cases b₁ <;> cases b₂ <;> rfl

theorem stableRank_sorted (preferred_adapter : String) (l : List DxvkAdapter) :
    (stableRank preferred_adapter l).Pairwise
      (fun x y => adapterLess preferred_adapter y x = false) := by
  unfold stableRank
  have cross : ∀ (k₁ k₂ : Bool × Bool) (x y : DxvkAdapter),
      x ∈ l.filter (fun a => rankingKey preferred_adapter a == k₁) →
      y ∈ l.filter (fun a => rankingKey preferred_adapter a == k₂) →
      keyLexLess k₂ k₁ = false →
      adapterLess preferred_adapter y x = false := by
    intro k₁ k₂ x y hx hy hk
    rw [adapterLess_eq_keyLexLess, mem_keyClass hx, mem_keyClass hy]
    exact hk
  refine List.pairwise_append.mpr ⟨pairwise_keyClass _ _ _, ?_, ?_⟩
  · refine List.pairwise_append.mpr ⟨pairwise_keyClass _ _ _, ?_, ?_⟩
    · refine List.pairwise_append.mpr ⟨pairwise_keyClass _ _ _, pairwise_keyClass _ _ _, ?_⟩
      intro x hx y hy
      exact cross _ _ x y hx hy rfl
    · intro x hx y hy
      rcases List.mem_append.mp hy with hy | hy
      · exact cross _ _ x y hx hy rfl
      · exact cross _ _ x y hx hy rfl
  · intro x hx y hy
    rcases List.mem_append.mp hy with hy | hy
    · exact cross _ _ x y hx hy rfl
    · rcases List.mem_append.mp hy with hy | hy
      · exact cross _ _ x y hx hy rfl
      · exact cross _ _ x y hx hy rfl

theorem stableRank_stable (preferred_adapter : String) (l : List DxvkAdapter) :
    RankStable preferred_adapter l (stableRank preferred_adapter l) := by
  intro k
  unfold stableRank
  simp only [List.filter_append, List.filter_filter]
  rcases k with ⟨b₁, b₂⟩
  have hself : ∀ k : Bool × Bool,
      l.filter (fun a => rankingKey preferred_adapter a == k && rankingKey preferred_adapter a == k)
        = l.filter (fun a => rankingKey preferred_adapter a == k) := by
    intro k
    congr 1
    funext a
    exact Bool.and_self _
  have hnil : ∀ k k' : Bool × Bool, k ≠ k' →
      l.filter (fun a => rankingKey preferred_adapter a == k && rankingKey preferred_adapter a == k')
        = [] := by
    intro k k' hne
    rw [List.filter_eq_nil_iff]
    intro a _ h
    rw [Bool.and_eq_true, beq_iff_eq, beq_iff_eq] at h
    exact hne (h.1.symm.trans h.2)
  cases b₁ <;> cases b₂ <;> simp [hself, hnil]

theorem stableRank_of_stable (preferred_adapter : String) (l₁ l₂ : List DxvkAdapter)
    (h : RankStable preferred_adapter l₁ l₂) :
    stableRank preferred_adapter l₂ = stableRank preferred_adapter l₁ := by
  unfold stableRank
  rw [h (true, true), h (true, false), h (false, true), h (false, false)]

theorem stableRank_of_sorted (preferred_adapter : String) (l : List DxvkAdapter)
    (h : l.Pairwise (fun x y => adapterLess preferred_adapter y x = false)) :
    stableRank preferred_adapter l = l := by
  induction l with
  | nil => rfl
  | cons a l ih =>
    rw [List.pairwise_cons] at h
    have hnil : ∀ c : Bool × Bool, keyLexLess c (rankingKey preferred_adapter a) = true →
        l.filter (fun x => rankingKey preferred_adapter x == c) = [] := by
      intro c hc
      rw [List.filter_eq_nil_iff]
      intro b hb hbc
      have hless := h.1 b hb
      rw [adapterLess_eq_keyLexLess, beq_iff_eq.mp hbc, hc] at hless
      exact absurd hless (by decide)
    have ih2 := ih h.2
    unfold stableRank at ih2 ⊢
    rcases hk : rankingKey preferred_adapter a with ⟨b₁, b₂⟩
    rw [hk] at hnil
    cases b₁ <;> cases b₂
    · have e1 := hnil (true, true) rfl
      have e2 := hnil (true, false) rfl
      have e3 := hnil (false, true) rfl
      rw [e1, e2, e3] at ih2
      simp only [List.filter_cons, hk, e1, e2, e3]
      simp
      simpa using ih2
    · have e1 := hnil (true, true) rfl
      have e2 := hnil (true, false) rfl
      rw [e1, e2] at ih2
      simp only [List.filter_cons, hk, e1, e2]
      simp
      simpa using ih2
    · have e1 := hnil (true, true) rfl
      rw [e1] at ih2
      simp only [List.filter_cons, hk, e1]
      simp
      simpa using ih2
    · simp only [List.filter_cons, hk]
      simp
      simpa using ih2

/-! ### What `std::sort` leaves of the enumeration order -/

theorem keyOrder_antisymm (k₁ k₂ : Bool × Bool)
    (h₁ : keyLexLess k₂ k₁ = false) (h₂ : keyLexLess k₁ k₂ = false) : k₁ = k₂ := by
  rcases k₁ with ⟨a₁, a₂⟩
  rcases k₂ with ⟨b₁, b₂⟩
  revert h₁ h₂
  cases a₁ <;> cases a₂ <;> cases b₁ <;> cases b₂ <;> simp [keyLexLess]

theorem keys_pairwise_of_sorted (preferred_adapter : String) (l : List DxvkAdapter)
    (h : l.Pairwise (fun x y => adapterLess preferred_adapter y x = false)) :
    (l.map (rankingKey preferred_adapter)).Pairwise (fun k₁ k₂ => keyLexLess k₂ k₁ = false) := by
  rw [List.pairwise_map]
  refine h.imp ?_
  intro x y hxy
  rw [← adapterLess_eq_keyLexLess]
  exact hxy

theorem keys_eq_of_sorted_perm (preferred_adapter : String) (l₁ l₂ : List DxvkAdapter)
    (hp : l₁.Perm l₂)
    (h₁ : l₁.Pairwise (fun x y => adapterLess preferred_adapter y x = false))
    (h₂ : l₂.Pairwise (fun x y => adapterLess preferred_adapter y x = false)) :
    l₁.map (rankingKey preferred_adapter) = l₂.map (rankingKey preferred_adapter) := by
  haveI : IsAntisymm (Bool × Bool) (fun k₁ k₂ => keyLexLess k₂ k₁ = false) :=
    ⟨fun a b hab hba => keyOrder_antisymm a b hab hba⟩
  exact List.eq_of_perm_of_sorted (hp.map _)
    (keys_pairwise_of_sorted preferred_adapter l₁ h₁)
    (keys_pairwise_of_sorted preferred_adapter l₂ h₂)

/-- With the `std::sort` of libstdc++ and at most sixteen surviving records the
ranking is the stable ranking of the specification. -/
theorem libstdcxx_rank_eq_stableRank (preferred_adapter : String) (survivors : List DxvkAdapter)
    (hlen : survivors.length ≤ 16) :
    rankAdapters Libstdcxx.sort preferred_adapter survivors
      = stableRank preferred_adapter survivors := by
  have hpost := libstdcxx_meets_post preferred_adapter survivors
  unfold rankAdapters
  have hstable : RankStable preferred_adapter survivors
      (Libstdcxx.sort (adapterLess preferred_adapter) survivors) := by
    intro k
    exact Libstdcxx.sort_stable_of_length_le (adapterLess preferred_adapter)
      (adapterLess_swo preferred_adapter) (rankingKey preferred_adapter)
      (adapterLess_key_ne preferred_adapter) survivors hlen k
  rw [← stableRank_of_sorted preferred_adapter _ hpost.2]
  exact stableRank_of_stable preferred_adapter _ _ hstable

/-- C1 (as stated, refuted): with the `std::sort` of libstdc++ and no override,
seventeen identical discrete cards enumerated as 1, 2, ..., 17 are returned as
9, 17, 16, ..., 10, 1, 8, 7, ..., 2: the result meets the postcondition of
`std::sort`, all keys are identical, and the enumeration order is lost. -/
theorem ranking_not_stable_on_seventeen_cards :
    wrappedAdapters rigDriver = some rig17 ∧
    (queryAdapters Libstdcxx.sort rigDriver (fun _ => true) "").result
      = .returned (rankAdapters Libstdcxx.sort "" rig17) ∧
    (rankAdapters Libstdcxx.sort "" rig17).map DxvkAdapter.handle
      = [9, 17, 16, 15, 14, 13, 12, 11, 10, 1, 8, 7, 6, 5, 4, 3, 2] ∧
    StdSortPost (adapterLess "") rig17 (rankAdapters Libstdcxx.sort "" rig17) ∧
    ¬ RankStable "" rig17 (rankAdapters Libstdcxx.sort "" rig17) := by
  refine ⟨by decide, by decide, by decide, ⟨by decide, by decide⟩, ?_⟩
  intro h
  have h2 := h (false, true)
  revert h2
  decide

/-- C1 (amended): for every override and every list of surviving records,
whenever `std::sort` meets its postcondition on the call made (the routine of
libstdc++ always does), the ranking is a rearrangement of the survivors ordered
by key: no record has a key that ranks before the key of a record placed ahead
of it, position by position the keys are those of the stable ranking, and the
records carrying one key are the same as in the enumeration.  Their relative
order is the enumeration order exactly when the ranking is the stable ranking
of the specification; `std::sort` does not promise that, and the routine of
libstdc++ delivers it whenever at most sixteen records survive. -/
theorem ranking_sorted_by_key
    (sort : (DxvkAdapter → DxvkAdapter → Bool) → List DxvkAdapter → List DxvkAdapter)
    (preferred_adapter : String) (survivors : List DxvkAdapter)
    (hsort : StdSortPost (adapterLess preferred_adapter) survivors
      (sort (adapterLess preferred_adapter) survivors)) :
    (rankAdapters sort preferred_adapter survivors).Perm survivors ∧
    (∀ (i j : Nat) (hi : i < (rankAdapters sort preferred_adapter survivors).length)
      (hj : j < (rankAdapters sort preferred_adapter survivors).length), i < j →
      keyLexLess
        (rankingKey preferred_adapter ((rankAdapters sort preferred_adapter survivors).get ⟨j, hj⟩))
        (rankingKey preferred_adapter ((rankAdapters sort preferred_adapter survivors).get ⟨i, hi⟩))
        = false) ∧
    (rankAdapters sort preferred_adapter survivors).map (rankingKey preferred_adapter)
      = (stableRank preferred_adapter survivors).map (rankingKey preferred_adapter) ∧
    (∀ k : Bool × Bool,
      ((rankAdapters sort preferred_adapter survivors).filter
        (fun a => rankingKey preferred_adapter a == k)).Perm
      (survivors.filter (fun a => rankingKey preferred_adapter a == k))) ∧
    (RankStable preferred_adapter survivors (rankAdapters sort preferred_adapter survivors) ↔
      rankAdapters sort preferred_adapter survivors = stableRank preferred_adapter survivors) ∧
    (survivors.length ≤ 16 →
      rankAdapters Libstdcxx.sort preferred_adapter survivors
        = stableRank preferred_adapter survivors) := by
  refine ⟨hsort.1, ?_, ?_, ?_, ?_, libstdcxx_rank_eq_stableRank preferred_adapter survivors⟩
  · intro i j hi hj hij
    rw [← adapterLess_eq_keyLexLess]
    exact StdSortPost.get_not_less hsort i j hi hj hij
  · exact keys_eq_of_sorted_perm preferred_adapter _ _
      (hsort.1.trans (stableRank_perm preferred_adapter survivors).symm)
      hsort.2 (stableRank_sorted preferred_adapter survivors)
  · intro k
    exact hsort.1.filter _
  · constructor
    · intro hstable
      have h1 : stableRank preferred_adapter (rankAdapters sort preferred_adapter survivors)
          = rankAdapters sort preferred_adapter survivors :=
        stableRank_of_sorted preferred_adapter _ hsort.2
      rw [← h1]
      exact stableRank_of_stable preferred_adapter _ _ hstable
    · intro heq
      rw [heq]
      exact stableRank_stable preferred_adapter survivors

/-- Scenario C under the `std::sort` of libstdc++: the ranking is `[D1, D3, D2]`. -/
theorem ranking_sorted_by_key_witness :
    rankAdapters Libstdcxx.sort "" [scenarioD1, scenarioD2, scenarioD3]
      = [scenarioD1, scenarioD3, scenarioD2] ∧
    (rankAdapters Libstdcxx.sort "" [scenarioD1, scenarioD2, scenarioD3]).Perm
      [scenarioD1, scenarioD2, scenarioD3] ∧
    (rankAdapters Libstdcxx.sort "" [scenarioD1, scenarioD2, scenarioD3]).map (rankingKey "")
      = (stableRank "" [scenarioD1, scenarioD2, scenarioD3]).map (rankingKey "") :=
  ⟨by decide,
    (ranking_sorted_by_key Libstdcxx.sort "" [scenarioD1, scenarioD2, scenarioD3]
      (libstdcxx_meets_post "" [scenarioD1, scenarioD2, scenarioD3])).1,
    (ranking_sorted_by_key Libstdcxx.sort "" [scenarioD1, scenarioD2, scenarioD3]
      (libstdcxx_meets_post "" [scenarioD1, scenarioD2, scenarioD3])).2.2.1⟩

/-- Scenario D under the `std::sort` of libstdc++: with override `B` the
integrated `D2` at index 0 stands before the discrete `D1` at index 1. -/
theorem preferred_before_others_witness :
    "B" ≠ "" ∧
    StdSortPost (adapterLess "B") [scenarioD1, scenarioD2, scenarioD3]
      (Libstdcxx.sort (adapterLess "B") [scenarioD1, scenarioD2, scenarioD3]) ∧
    rankAdapters Libstdcxx.sort "B" [scenarioD1, scenarioD2, scenarioD3]
      = [scenarioD2, scenarioD1, scenarioD3] ∧
    0 < 1 :=
  ⟨by decide, libstdcxx_meets_post "B" [scenarioD1, scenarioD2, scenarioD3], by decide,
    preferred_before_others Libstdcxx.sort "B" [scenarioD1, scenarioD2, scenarioD3]
      (by decide) (libstdcxx_meets_post "B" [scenarioD1, scenarioD2, scenarioD3])
      0 1 (by decide) (by decide) (by decide) (by decide)⟩

/-- The driver that loses a device between the two phases (the buffer has three
entries, two records are wrapped) and the driver without devices (null buffer,
stored count 0, empty list, normal return). -/
theorem wrapped_length_is_fetch_count_witness :
    (shrinkingDriver.enumCount.1 = VK_SUCCESS ∧
      (fetchAnswer shrinkingDriver).1 = VK_SUCCESS ∧
      (fetchAnswer shrinkingDriver).2.1 ≤ shrinkingDriver.enumCount.2) ∧
    (emptyDriver.enumCount.1 = VK_SUCCESS ∧
      (fetchAnswer emptyDriver).1 = VK_SUCCESS ∧
      (fetchAnswer emptyDriver).2.1 ≤ emptyDriver.enumCount.2) ∧
    wrappedAdapters shrinkingDriver = some [scenarioD1, scenarioD2] ∧
    wrappedAdapters emptyDriver = some [] ∧
    (adaptersBuffer shrinkingDriver).length = shrinkingDriver.enumCount.2 ∧
    (∃ raw, wrappedAdapters shrinkingDriver = some raw ∧
      raw.length = (fetchAnswer shrinkingDriver).2.1) ∧
    (queryAdapters Libstdcxx.sort emptyDriver (fun _ => true) "").calls =
      [DriverCall.vkEnumeratePhysicalDevices none,
       DriverCall.vkEnumeratePhysicalDevices
         (if emptyDriver.enumCount.2 = 0 then none else some emptyDriver.enumCount.2)] :=
  ⟨⟨by decide, by decide, by decide⟩, ⟨by decide, by decide, by decide⟩, by decide, by decide,
    (wrapped_length_is_fetch_count Libstdcxx.sort shrinkingDriver (fun _ => true) ""
      (by decide) (by decide) (by decide)).1,
    match (wrapped_length_is_fetch_count Libstdcxx.sort shrinkingDriver (fun _ => true) ""
      (by decide) (by decide) (by decide)).2.2 with
    | ⟨raw, h₁, h₂, _⟩ => ⟨raw, h₁, h₂⟩,
    (wrapped_length_is_fetch_count Libstdcxx.sort emptyDriver (fun _ => true) ""
      (by decide) (by decide) (by decide)).2.1⟩

/-- Scenario driver with a filter that keeps the discrete devices: `D1` and `D3`
are returned. -/
theorem queryAdapters_perm_accepted_witness :
    scenarioDriver.enumCount.1 = VK_SUCCESS ∧
    (fetchAnswer scenarioDriver).1 = VK_SUCCESS ∧
    wrappedAdapters scenarioDriver = some [scenarioD1, scenarioD2, scenarioD3] ∧
    (queryAdapters Libstdcxx.sort scenarioDriver is_discrete "B").result
      = .returned [scenarioD1, scenarioD3] ∧
    (∃ adapters,
      (queryAdapters Libstdcxx.sort scenarioDriver is_discrete "B").result
        = .returned adapters ∧
      adapters.Perm ([scenarioD1, scenarioD2, scenarioD3].filter is_discrete)) :=
  ⟨by decide, by decide, by decide, by decide,
    match queryAdapters_perm_accepted Libstdcxx.sort scenarioDriver is_discrete "B"
      [scenarioD1, scenarioD2, scenarioD3] (by decide) (by decide) (by decide)
      (libstdcxx_meets_post "B" ([scenarioD1, scenarioD2, scenarioD3].filter is_discrete)) with
    | ⟨adapters, h₁, h₂, _⟩ => ⟨adapters, h₁, h₂⟩⟩

/-! ### Instance creation -/

theorem supports_iff (self : DxvkNameSet) (name : String) :
    DxvkNameSet.supports self name = true ↔ name ∈ self := by
  unfold DxvkNameSet.supports
  simp

theorem enableExtensions_fst (self : DxvkNameSet) (exts : List DxvkExt) (nameSet : DxvkNameSet) :
    (DxvkNameSet.enableExtensions self exts nameSet).1 = true ↔ ∀ ext ∈ exts, ext.name ∈ self := by
  induction exts generalizing nameSet with
  | nil => simp [DxvkNameSet.enableExtensions]
  | cons ext rest ih =>
    unfold DxvkNameSet.enableExtensions
    by_cases h : DxvkNameSet.supports self ext.name = true
    · have hmem : ext.name ∈ self := (supports_iff self ext.name).mp h
      rw [if_pos h]
      have := ih (DxvkNameSet.add nameSet ext.name)
      simp only [List.mem_cons, forall_eq_or_imp]
      rw [← this]
      simp [hmem]
    · have hmem : ¬ ext.name ∈ self := fun hm => h ((supports_iff self ext.name).mpr hm)
      rw [if_neg h]
      simp only [List.mem_cons, forall_eq_or_imp]
      simp [hmem]

theorem createInstance_of_negotiated (m_vkl : LibraryFn) (vrExtensions : DxvkNameSet)
    (h : ∀ ext ∈ insExtensionList, ext.name ∈ m_vkl.enumInstanceExtensions) :
    (createInstance m_vkl vrExtensions).result =
      (if (m_vkl.vkCreateInstance (extensionNameList m_vkl vrExtensions)).1 = VK_SUCCESS then
        .ok (m_vkl.vkCreateInstance (extensionNameList m_vkl vrExtensions)).2
       else .error creationFailed) ∧
    (createInstance m_vkl vrExtensions).calls =
      [DriverCall.vkCreateInstance (extensionNameList m_vkl vrExtensions)] := by
  have h1 := (enableExtensions_fst m_vkl.enumInstanceExtensions insExtensionList []).mpr h
  unfold createInstance
  simp only [h1, Bool.not_true, Bool.false_eq_true, if_false]
  by_cases hs : (m_vkl.vkCreateInstance (extensionNameList m_vkl vrExtensions)).1 = VK_SUCCESS
  · simp only [hs, bne_self_eq_false, Bool.false_eq_true, if_false, if_true, and_self]
  · have hb : ((m_vkl.vkCreateInstance (extensionNameList m_vkl vrExtensions)).1 != VK_SUCCESS)
        = true := bne_iff_ne.mpr hs
    simp only [hb, hs, if_true, if_false, and_self]

theorem createInstance_of_not_negotiated (m_vkl : LibraryFn) (vrExtensions : DxvkNameSet)
    (h : ¬ ∀ ext ∈ insExtensionList, ext.name ∈ m_vkl.enumInstanceExtensions) :
    (createInstance m_vkl vrExtensions).result = .error negotiationFailed ∧
    (createInstance m_vkl vrExtensions).calls = [] := by
  have h1 : (DxvkNameSet.enableExtensions m_vkl.enumInstanceExtensions insExtensionList []).1
      = false := by
    rw [← Bool.not_eq_true, enableExtensions_fst]
    exact h
  unfold createInstance
  simp only [h1, Bool.not_false, if_true, and_self]

/-- C8: negotiation of a mandatory list against the driver-supported set
succeeds exactly when every mandatory name is supported (it fails for
`S = {Ext1}`, `M = {Ext1, Ext2}`); `createInstance`, whose mandatory list is
get-physical-device-properties2, surface and win32-surface, fails exactly when
that negotiation fails or `vkCreateInstance` answers with a non-success status,
and when negotiation fails `vkCreateInstance` is not called. -/
theorem createInstance_fails_iff (m_vkl : LibraryFn) (vrExtensions : DxvkNameSet) :
    (∀ (S : DxvkNameSet) (M : List DxvkExt) (out : DxvkNameSet),
      (DxvkNameSet.enableExtensions S M out).1 = true ↔ ∀ ext ∈ M, ext.name ∈ S) ∧
    (DxvkNameSet.enableExtensions ["Ext1"] [⟨"Ext1", false⟩, ⟨"Ext2", false⟩] []).1 = false ∧
    insExtensionList.map DxvkExt.name
      = ["VK_KHR_get_physical_device_properties2", "VK_KHR_surface", "VK_KHR_win32_surface"] ∧
    ((∃ e, (createInstance m_vkl vrExtensions).result = .error e) ↔
      (¬ (∀ ext ∈ insExtensionList, ext.name ∈ m_vkl.enumInstanceExtensions) ∨
       (m_vkl.vkCreateInstance (extensionNameList m_vkl vrExtensions)).1 ≠ VK_SUCCESS)) ∧
    (createInstance m_vkl vrExtensions).result =
      (if ∀ ext ∈ insExtensionList, ext.name ∈ m_vkl.enumInstanceExtensions then
        if (m_vkl.vkCreateInstance (extensionNameList m_vkl vrExtensions)).1 = VK_SUCCESS then
          .ok (m_vkl.vkCreateInstance (extensionNameList m_vkl vrExtensions)).2
        else .error creationFailed
       else .error negotiationFailed) ∧
    (createInstance m_vkl vrExtensions).calls =
      (if ∀ ext ∈ insExtensionList, ext.name ∈ m_vkl.enumInstanceExtensions then
        [DriverCall.vkCreateInstance (extensionNameList m_vkl vrExtensions)]
       else []) := by
  refine ⟨enableExtensions_fst, by decide, by decide, ?_⟩
  by_cases h : ∀ ext ∈ insExtensionList, ext.name ∈ m_vkl.enumInstanceExtensions
  · obtain ⟨hr, hc⟩ := createInstance_of_negotiated m_vkl vrExtensions h
    rw [if_pos h, if_pos h, hr, hc]
    refine ⟨?_, rfl, rfl⟩
    by_cases hs : (m_vkl.vkCreateInstance (extensionNameList m_vkl vrExtensions)).1 = VK_SUCCESS
    · rw [if_pos hs]
      constructor
      · rintro ⟨e, he⟩
        exact Except.noConfusion he
      · rintro (hn | hn)
        · exact absurd h hn
        · exact absurd hs hn
    · rw [if_neg hs]
      exact ⟨fun _ => Or.inr hs, fun _ => ⟨creationFailed, rfl⟩⟩
  · obtain ⟨hr, hc⟩ := createInstance_of_not_negotiated m_vkl vrExtensions h
    rw [if_neg h, if_neg h, hr, hc]
    exact ⟨⟨fun _ => Or.inl h, fun _ => ⟨negotiationFailed, rfl⟩⟩, rfl, rfl⟩

end Dxvk
